import Mathlib

/-!
Shallow embedding of the volume-resize reconciliation engine of
`pkg/cluster/volumes.go` (postgres-operator).  Stateful Go code is turned into
explicit state passing; fallible calls return `Except`/`Option`; the external
collaborators (resource store, cloud resize backends, filesystem resizer) are
modelled as explicit inputs whose success/failure behaviour is part of the
input, and every externally visible call the coordinator makes is recorded in
an event trace.
-/

set_option maxRecDepth 4096

namespace PgOp

/-- Modelled from the spec: `constants.Gigabyte` (not under `src/`); the spec
says sizes are compared in whole gigabytes with `Gi` manifest suffixes, so one
gigabyte is 2^30 bytes. -/
def gigabyte : Nat := 1073741824

/-- Modelled from the spec: `constants.DataVolumeName` (not under `src/`); the
spec's scenario uses the data-volume name `"pgdata"`. -/
def dataVolumeName : String := "pgdata"

/-- `spec.NamespacedName`. -/
structure NamespacedName where
  nspace : String
  name : String
deriving DecidableEq, Repr

/-- The fields of `v1.PersistentVolume` read or written by this code:
its name, its storage capacity in bytes (`pv.Spec.Capacity[v1.ResourceStorage]`,
a `resource.Quantity` modelled as a byte count), and the claim back-reference
(`pv.Spec.ClaimRef`). -/
structure PersistentVolume where
  name : String
  capacity : Nat
  claimRefNamespace : String
  claimRefName : String
deriving DecidableEq, Repr

/-- The fields of `v1.PersistentVolumeClaim` read by this code: its name and
the bound volume name (`pvc.Spec.VolumeName`). -/
structure PersistentVolumeClaim where
  name : String
  volumeName : String
deriving DecidableEq, Repr

/-- `spec.Volume` — the manifest volume specification (`Size` field). -/
structure VolumeSpec where
  size : String
deriving DecidableEq, Repr

/-- The cluster context consumed by the volume code: the statefulset's current
replica count (`*c.Statefulset.Spec.Replicas`, an int32), the claims the label
selector returns, and the store's persistent-volume records. -/
structure Cluster where
  replicas : Int
  pvcs : List PersistentVolumeClaim
  serverPVs : List PersistentVolume
deriving Repr

/-- Go `int32(n)` conversion: two's-complement truncation to 32 bits. -/
def toInt32 (n : Int) : Int := (n + 2147483648) % 4294967296 - 2147483648

/-- `quantityToGigabyte`: `q.ScaledValue(0) / (1 * constants.Gigabyte)`.
Quantities here are byte counts, so `ScaledValue(0)` is the value itself; Go
integer division on non-negative values is truncating division. -/
def quantityToGigabyte (q : Nat) : Nat := q / (1 * gigabyte)

/-- Modelled from the spec: `resource.ParseQuantity` (k8s apimachinery, not
under `src/`) — parses a decimal count with an optional unit suffix such as
`Gi`; returns the byte count.  Only the shapes the spec mentions are needed. -/
def parseQuantity (s : String) : Option Nat :=
  let digits := s.data.takeWhile Char.isDigit
  let suffix := s.data.dropWhile Char.isDigit
  if digits = [] then none
  else
    let v := digits.foldl (fun a c => a * 10 + (c.toNat - 48)) 0
    match String.mk suffix with
    | "" => some v
    | "Ki" => some (v * 1024)
    | "Mi" => some (v * 1048576)
    | "Gi" => some (v * 1073741824)
    | "k" => some (v * 1000)
    | "M" => some (v * 1000000)
    | "G" => some (v * 1000000000)
    | _ => none

/-- The error kinds the volume code can produce, one per distinct `return`ed
failure (messages elided, kinds kept). `substringPanic` stands for the Go
runtime panic of the out-of-range string slice in
`getPodNameFromPersistentVolume`. -/
inductive ResizeError where
  | invalidSizeSpec
  | malformedIdentifier (claimName : String)
  | storeGetError (volumeName : String)
  | shrinkNotSupported
  | connectError (backend : Nat)
  | providerIdError (backend : Nat)
  | blockResizeError (backend : Nat) (volumeId : String)
  | fsResizeError (pod : NamespacedName)
  | updateError (volumeName : String)
  | noCompatibleProvider
  | substringPanic (claimRefName : String)
deriving DecidableEq, Repr

/-- `strings.LastIndex(s, "-")` (index of the last dash, `none` when absent);
names are ASCII so byte indices and character indices coincide. -/
def lastDashIdxAux : List Char → Option Nat
  | [] => none
  | c :: rest =>
    match lastDashIdxAux rest with
    | some i => some (i + 1)
    | none => if c = '-' then some 0 else none

/-- Index of the last `'-'` in a string, `none` when there is none. -/
def lastDashIdx (s : String) : Option Nat := lastDashIdxAux s.data

/-- Go slice `s[i:]` for an in-range `i`. -/
def strSuffixFrom (s : String) (i : Nat) : String := String.mk (s.data.drop i)

/-- `strconv.Atoi`: optional sign, at least one digit, value within the 64-bit
signed range. -/
def atoiCore (l : List Char) (neg : Bool) : Option Int :=
  if l = [] ∨ ¬ l.all Char.isDigit then none
  else
    let v : Int := (l.foldl (fun a c => a * 10 + (c.toNat - 48)) 0 : Nat)
    let v := if neg then -v else v
    if v < -9223372036854775808 ∨ v > 9223372036854775807 then none else some v

/-- `strconv.Atoi`. -/
def atoi (s : String) : Option Int :=
  match s.data with
  | '+' :: rest => atoiCore rest false
  | '-' :: rest => atoiCore rest true
  | l => atoiCore l false

/-- The per-claim eligibility decision inside `listPersistentVolumes`
(lines 61–72 of `volumes.go`): `.ok true` = keep the claim, `.ok false` = skip
it (non-running replica slot), `.error` = unparseable trailing ordinal. -/
def claimEligibility (replicas : Int) (claimName : String) : Except ResizeError Bool :=
  match lastDashIdx claimName with
  | none => .ok true
  | some lastDash =>
    if 0 < lastDash ∧ lastDash + 1 < claimName.length then
      match atoi (strSuffixFrom claimName (lastDash + 1)) with
      | none => .error (.malformedIdentifier claimName)
      | some n =>
        if toInt32 n > toInt32 (replicas - 1) then .ok false else .ok true
    else .ok true

/-- `c.KubeClient.PersistentVolumes().Get(name)`: first store record with the
given name. -/
def findPV (server : List PersistentVolume) (vname : String) : Option PersistentVolume :=
  server.find? (fun p => p.name == vname)

/-- `listPersistentVolumes` (lines 53–81 of `volumes.go`): walk the claims,
skip claims of non-running replica slots, abort on an unparseable ordinal or a
failed volume get, and return the surviving claims' volumes in order. -/
def listPersistentVolumes (replicas : Int) (server : List PersistentVolume) :
    List PersistentVolumeClaim → Except ResizeError (List PersistentVolume)
  | [] => .ok []
  | pvc :: rest =>
    match claimEligibility replicas pvc.name with
    | .error e => .error e
    | .ok elig =>
      if elig then
        match findPV server pvc.volumeName with
        | none => .error (.storeGetError pvc.volumeName)
        | some pv =>
          match listPersistentVolumes replicas server rest with
          | .error e => .error e
          | .ok tail => .ok (pv :: tail)
      else
        listPersistentVolumes replicas server rest

/-- Boolean form of the per-claim eligibility decision: true exactly when the
claim survives the running-replica filter. -/
def eligibleB (replicas : Int) (name : String) : Bool :=
  match claimEligibility replicas name with
  | .ok true => true
  | _ => false

/-- `listVolumesWithManifestSize`. -/
def listVolumesWithManifestSize (c : Cluster) (newVolume : VolumeSpec) :
    Except ResizeError (List PersistentVolume × Nat) :=
  match parseQuantity newVolume.size with
  | none => .error .invalidSizeSpec
  | some newSize =>
    let manifestSize := quantityToGigabyte newSize
    match listPersistentVolumes c.replicas c.serverPVs c.pvcs with
    | .error e => .error e
    | .ok vols => .ok (vols, manifestSize)

/-- `volumesNeedResizing`: true when some listed volume's size in gigabytes
differs from the manifest size. -/
def volumesNeedResizing (c : Cluster) (newVolume : VolumeSpec) : Except ResizeError Bool :=
  match listVolumesWithManifestSize c newVolume with
  | .error e => .error e
  | .ok (vols, manifestSize) =>
    .ok (vols.any (fun pv => quantityToGigabyte pv.capacity != manifestSize))

/-- `getPodNameFromPersistentVolume`: strips `len(constants.DataVolumeName)+1`
leading characters from the claim back-reference name, purely by position.  In
Go the slice `s[k:]` panics when `k > len(s)`; the total embedding returns
`none` there. -/
def getPodNameFromPersistentVolume (pv : PersistentVolume) : Option NamespacedName :=
  if dataVolumeName.length + 1 ≤ pv.claimRefName.length then
    some ⟨pv.claimRefNamespace, strSuffixFrom pv.claimRefName (dataVolumeName.length + 1)⟩
  else none

/-- One cloud resize backend (`volumes.VolumeResizer`): the ownership
predicate, the initial connection flag, and the outcomes of its fallible
operations, all supplied as input. -/
structure VolumeResizer where
  belongs : PersistentVolume → Bool
  initConnected : Bool
  connectOk : Bool
  disconnectOk : Bool
  providerId : PersistentVolume → Option String
  resizeOk : String → Nat → Bool

/-- Outcomes of the remaining external calls `resizeVolumes` makes: the
filesystem resize on a pod and the store's volume update. -/
structure ResizeEnv where
  fsResizeOk : NamespacedName → Bool
  updateOk : String → Bool

/-- The externally visible calls `resizeVolumes` performs, tagged with the
backend index and the index of the volume in the listed batch.  `storeUpdate`
records a completed capacity write. -/
inductive REvent where
  | belongsCheck (backend pvIdx : Nat)
  | connect (backend pvIdx : Nat)
  | getProviderID (backend pvIdx : Nat)
  | blockResize (backend pvIdx : Nat) (volumeId : String) (sizeGb : Nat)
  | fsResize (pvIdx : Nat) (pod : NamespacedName)
  | storeUpdate (pvIdx : Nat) (volumeName : String) (quantity : Nat)
  | disconnect (backend : Nat) (ok : Bool)
deriving DecidableEq, Repr

/-- The batch index of the volume an event concerns (`none` for the deferred
disconnects, which are per-backend). -/
def REvent.pvIdx? : REvent → Option Nat
  | .belongsCheck _ p => some p
  | .connect _ p => some p
  | .getProviderID _ p => some p
  | .blockResize _ p _ _ => some p
  | .fsResize p _ => some p
  | .storeUpdate p _ _ => some p
  | .disconnect _ _ => none

/-- The running state threaded through `resizeVolumes`: per-backend connection
flags, the stack of deferred disconnects, `totalCompatible`, the store's
volume records, the event trace, and the number of disconnects deferred during
the still-running inner backend loop.  Each deferred closure captures the one
`resizer` variable shared by all iterations of its inner loop (pre-Go-1.22
`range` semantics), so `deferred` holds the RESOLVED backend index each
closure will disconnect — the last value its loop variable took — and
`pending` counts the closures of the current inner loop, whose shared
variable is still being reassigned. -/
structure RunState where
  connected : List Bool
  deferred : List Nat
  total : Nat
  server : List PersistentVolume
  events : List REvent
  pending : Nat
deriving Repr

/-- Append one event to the trace. -/
def emit (st : RunState) (e : REvent) : RunState :=
  { st with events := st.events ++ [e] }

/-- The store's `PersistentVolumes().Update(pv)` after
`pv.Spec.Capacity[v1.ResourceStorage] = newQuantity`: rewrite the capacity of
the record with the volume's name. -/
def setCapacity : List PersistentVolume → String → Nat → List PersistentVolume
  | [], _, _ => []
  | p :: rest, n, q =>
    if p.name = n then { p with capacity := q } :: rest
    else p :: setCapacity rest n q

/-- The lazy-connection step of the backend loop (`IsConnectedToProvider`,
`ConnectToProvider`, and the `defer` of the closure calling
`DisconnectFromProvider` registered on a successful connect).  The deferred
closure does not capture the backend index `i`: it captures the inner loop's
shared `resizer` variable, so the registration only bumps `pending`; the
index the closure will disconnect is resolved when its loop's variable stops
changing (see `processResizers`). -/
def stepConnect (i : Nat) (rz : VolumeResizer) (pvIdx : Nat) (st : RunState) :
    RunState × Option ResizeError :=
  if st.connected.getD i false then (st, none)
  else
    let st := emit st (.connect i pvIdx)
    if rz.connectOk then
      ({ st with connected := st.connected.set i true,
                 pending := st.pending + 1 }, none)
    else (st, some (.connectError i))

/-- The post-connection operations of the backend loop: provider-id
resolution, block resize, pod-name recovery, filesystem resize, and the
capacity update. -/
def stepOps (env : ResizeEnv) (i : Nat) (rz : VolumeResizer) (pvIdx : Nat)
    (pv : PersistentVolume) (newSize newQuantity : Nat) (st : RunState) :
    RunState × Option ResizeError :=
  let st := emit st (.getProviderID i pvIdx)
  match rz.providerId pv with
  | none => (st, some (.providerIdError i))
  | some vid =>
    let st := emit st (.blockResize i pvIdx vid newSize)
    if rz.resizeOk vid newSize then
      match getPodNameFromPersistentVolume pv with
      | none => (st, some (.substringPanic pv.claimRefName))
      | some pod =>
        let st := emit st (.fsResize pvIdx pod)
        if env.fsResizeOk pod then
          if env.updateOk pv.name then
            let st := { st with server := setCapacity st.server pv.name newQuantity }
            (emit st (.storeUpdate pvIdx pv.name newQuantity), none)
          else (st, some (.updateError pv.name))
        else (st, some (.fsResizeError pod))
    else (st, some (.blockResizeError i vid))

/-- The work done for a volume by a backend whose ownership predicate matched
it: the connection step followed by the resize operations. -/
def stepMatched (env : ResizeEnv) (i : Nat) (rz : VolumeResizer) (pvIdx : Nat)
    (pv : PersistentVolume) (newSize newQuantity : Nat) (st : RunState) :
    RunState × Option ResizeError :=
  match stepConnect i rz pvIdx st with
  | (st', some e) => (st', some e)
  | (st', none) => stepOps env i rz pvIdx pv newSize newQuantity st'

/-- The body of the inner `for _, resizer := range resizers` loop of
`resizeVolumes` for one backend `rz` (index `i`) and one volume `pv` (batch
index `pvIdx`).  Returns the new state and `some e` when the Go code `return`s
the error `e` (`none` = fall through to the next backend). -/
def stepResizer (env : ResizeEnv) (i : Nat) (rz : VolumeResizer) (pvIdx : Nat)
    (pv : PersistentVolume) (newSize newQuantity : Nat) (st : RunState) :
    RunState × Option ResizeError :=
  let st := emit st (.belongsCheck i pvIdx)
  if rz.belongs pv then
    stepMatched env i rz pvIdx pv newSize newQuantity { st with total := st.total + 1 }
  else (st, none)

/-- The inner backend loop of `resizeVolumes`, with `i` the index of the first
backend of the remaining list; with no `break`, every backend whose predicate
matches processes the volume.  When the loop stops, the shared loop variable
the deferred closures captured stops changing, so the `pending` deferred
disconnects of this loop resolve: to the last backend iterated (`i - 1`, the
final list index) when the loop ran out of backends, and to the backend the
loop was at when an error `return`ed out of it. -/
def processResizers (env : ResizeEnv) (pvIdx : Nat) (pv : PersistentVolume)
    (newSize newQuantity : Nat) :
    Nat → List VolumeResizer → RunState → RunState × Option ResizeError
  | i, [], st =>
    ({ st with deferred := st.deferred ++ List.replicate st.pending (i - 1),
               pending := 0 }, none)
  | i, rz :: rest, st =>
    match stepResizer env i rz pvIdx pv newSize newQuantity st with
    | (st', some e) =>
      ({ st' with deferred := st'.deferred ++ List.replicate st'.pending i,
                  pending := 0 }, some e)
    | (st', none) => processResizers env pvIdx pv newSize newQuantity (i + 1) rest st'

/-- The outer `for _, pv := range pvs` loop of `resizeVolumes`, with `j` the
batch index of the first remaining volume: shrink aborts, an equal size skips
the volume before any backend is consulted, otherwise the backend loop runs. -/
def processVolumes (env : ResizeEnv) (rzs : List VolumeResizer)
    (newSize newQuantity : Nat) :
    Nat → List PersistentVolume → RunState → RunState × Option ResizeError
  | _, [], st => (st, none)
  | j, pv :: rest, st =>
    let volumeSize := quantityToGigabyte pv.capacity
    if volumeSize > newSize then (st, some .shrinkNotSupported)
    else if volumeSize = newSize then
      processVolumes env rzs newSize newQuantity (j + 1) rest st
    else
      match processResizers env j pv newSize newQuantity 0 rzs st with
      | (st', some e) => (st', some e)
      | (st', none) => processVolumes env rzs newSize newQuantity (j + 1) rest st'

/-- The value `resizeVolumes` produces: the Go return value (`none` = `nil`),
the full event trace (deferred disconnects included), and the store's volume
records after the call. -/
structure ResizeResult where
  res : Option ResizeError
  events : List REvent
  server : List PersistentVolume
deriving Repr

/-- The deferred closures run LIFO at function exit, each one calling
`DisconnectFromProvider` on the final value of the loop variable it captured
(the resolved index recorded on the `deferred` stack); a disconnect failure
is only logged. -/
def flushDeferred (rzs : List VolumeResizer) (st : RunState) : List REvent :=
  st.deferred.reverse.map (fun i =>
    .disconnect i (match rzs.get? i with | some rz => rz.disconnectOk | none => true))

/-- `resizeVolumes` (lines 84–145 of `volumes.go`): parse the manifest size,
list the eligible volumes with the manifest size in gigabytes, run the volume
loop, and finally fail with the no-compatible-provider error when the batch
was non-empty but `totalCompatible` stayed zero. -/
def resizeVolumes (c : Cluster) (newVolume : VolumeSpec) (rzs : List VolumeResizer)
    (env : ResizeEnv) : ResizeResult :=
  match parseQuantity newVolume.size with
  | none => ⟨some .invalidSizeSpec, [], c.serverPVs⟩
  | some newQuantity =>
    match listVolumesWithManifestSize c newVolume with
    | .error e => ⟨some e, [], c.serverPVs⟩
    | .ok (pvs, newSize) =>
      let st0 : RunState := ⟨rzs.map (·.initConnected), [], 0, c.serverPVs, [], 0⟩
      let out := processVolumes env rzs newSize newQuantity 0 pvs st0
      let finalRes : Option ResizeError :=
        match out.2 with
        | some e => some e
        | none =>
          if 0 < pvs.length ∧ out.1.total = 0 then some .noCompatibleProvider
          else none
      ⟨finalRes, out.1.events ++ flushDeferred rzs out.1, out.1.server⟩

/-- Is the event a `ConnectToProvider` call on backend `i`? -/
def isConnectE (i : Nat) : REvent → Bool
  | .connect b _ => b == i
  | _ => false

/-- Is the event a `DisconnectFromProvider` call on backend `i`? -/
def isDisconnectE (i : Nat) : REvent → Bool
  | .disconnect b _ => b == i
  | _ => false

/-- Is the event any disconnect call? -/
def isDisconnectAny : REvent → Bool
  | .disconnect _ _ => true
  | _ => false

/-- Is the event any `ConnectToProvider` call? -/
def isConnectAnyE : REvent → Bool
  | .connect _ _ => true
  | _ => false

/-- Is the event a completed store capacity update? -/
def isStoreUpdateE : REvent → Bool
  | .storeUpdate _ _ _ => true
  | _ => false

/-- Is the event a block-device resize by backend `i` of batch volume `j`? -/
def isBlockResizeFor (i j : Nat) : REvent → Bool
  | .blockResize b p _ _ => b == i && p == j
  | _ => false

/-- The initial connection flag of backend `i` of the supplied list. -/
def initAt (rzs : List VolumeResizer) (i : Nat) : Bool :=
  ((rzs.get? i).map (·.initConnected)).getD false

/-- Whether `ConnectToProvider` succeeds for backend `i` of the supplied
list. -/
def connectOkAt (rzs : List VolumeResizer) (i : Nat) : Bool :=
  ((rzs.get? i).map (·.connectOk)).getD true

/-- The connection/capture invariant maintained between steps of the resize
loop on a run that has not aborted: the per-backend flag list keeps its
length, an initially connected backend stays connected, the body emits no
disconnect, an initially connected backend is never the target of a connect
call, a backend carries at most one connect call (and none while its flag is
still down), and the resolved-plus-pending deferred disconnects balance the
connect calls made. -/
def CapInv (rzs : List VolumeResizer) (st : RunState) : Prop :=
  st.connected.length = rzs.length ∧
  (∀ i, initAt rzs i = true → st.connected.getD i false = true) ∧
  (∀ e ∈ st.events, isDisconnectAny e = false) ∧
  (∀ i, initAt rzs i = true → st.events.countP (isConnectE i) = 0) ∧
  (∀ i, if st.connected.getD i false = true
    then st.events.countP (isConnectE i) ≤ 1
    else st.events.countP (isConnectE i) = 0) ∧
  st.deferred.length + st.pending = st.events.countP isConnectAnyE

/-- What survives of `CapInv` past a mid-loop abort: no disconnect in the
body, no connect call on an initially connected backend, at most one connect
call per backend. -/
def CapInvErr (rzs : List VolumeResizer) (st : RunState) : Prop :=
  (∀ e ∈ st.events, isDisconnectAny e = false) ∧
  (∀ i, initAt rzs i = true → st.events.countP (isConnectE i) = 0) ∧
  (∀ i, st.events.countP (isConnectE i) ≤ 1)

/-- Whether batch volume `j'` is one that backend `i'` picks up for a resize:
the volume exists, needs growing, and the backend's ownership predicate
matches it. -/
def matchedB (rzs : List VolumeResizer) (pvs : List PersistentVolume) (ns : Nat)
    (i' j' : Nat) : Bool :=
  match pvs.get? j', rzs.get? i' with
  | some pv, some rz => decide (quantityToGigabyte pv.capacity < ns) && rz.belongs pv
  | _, _ => false

/-- A resize environment in which the filesystem resize and the store update
always succeed. -/
def envAllOk : ResizeEnv := ⟨fun _ => true, fun _ => true⟩

/-- A 10Gi volume `va` claimed by `pgdata-a-0`. -/
def pvVa : PersistentVolume := ⟨"va", 10737418240, "default", "pgdata-a-0"⟩

/-- A 10Gi volume `vb` claimed by `pgdata-b-0`. -/
def pvVb10 : PersistentVolume := ⟨"vb", 10737418240, "default", "pgdata-b-0"⟩

/-- A 30Gi volume `vb` claimed by `pgdata-b-0`. -/
def pvVb30 : PersistentVolume := ⟨"vb", 32212254720, "default", "pgdata-b-0"⟩

/-- A backend that claims every volume and whose operations all succeed. -/
def rzAll : VolumeResizer :=
  ⟨fun _ => true, false, true, true,
   fun pv => some (String.append "aws-" pv.name), fun _ _ => true⟩

/-- A backend that claims only the volume named `va`; its operations all
succeed. -/
def rzOnlyVa : VolumeResizer :=
  ⟨fun pv => pv.name == "va", false, true, true,
   fun pv => some (String.append "aws-" pv.name), fun _ _ => true⟩

/-- A backend that claims no volume at all; its operations all succeed. -/
def rzNone : VolumeResizer :=
  ⟨fun _ => false, false, true, true,
   fun pv => some (String.append "aws-" pv.name), fun _ _ => true⟩

/-- A one-replica cluster with the single 20Gi volume `va`. -/
def cEq20 : Cluster :=
  ⟨1, [⟨"pgdata-a-0", "va"⟩], [⟨"va", 21474836480, "default", "pgdata-a-0"⟩]⟩

/-- A one-replica cluster with the single 10Gi volume `va`. -/
def cA10 : Cluster := ⟨1, [⟨"pgdata-a-0", "va"⟩], [pvVa]⟩

/-- A one-replica cluster with a 10Gi volume `va` and a 30Gi volume `vb`. -/
def cGrowShrink : Cluster :=
  ⟨1, [⟨"pgdata-a-0", "va"⟩, ⟨"pgdata-b-0", "vb"⟩], [pvVa, pvVb30]⟩

/-- A one-replica cluster with two 10Gi volumes `va` and `vb`. -/
def cAB10 : Cluster :=
  ⟨1, [⟨"pgdata-a-0", "va"⟩, ⟨"pgdata-b-0", "vb"⟩], [pvVa, pvVb10]⟩

/-- A one-replica cluster whose volume's claim back-reference name `"x"` is
shorter than the data-volume prefix. -/
def cShortClaim : Cluster :=
  ⟨1, [⟨"x", "vs"⟩], [⟨"vs", 10737418240, "default", "x"⟩]⟩

/-- A one-replica cluster whose first volume `ve` already has 20Gi and whose
second volume `vb` has 30Gi. -/
def cEqShrink : Cluster :=
  ⟨1, [⟨"pgdata-a-0", "ve"⟩, ⟨"pgdata-b-0", "vb"⟩],
   [⟨"ve", 21474836480, "default", "pgdata-a-0"⟩, pvVb30]⟩

/-- A one-replica cluster with a 20Gi volume `ve` (already at target) and a
10Gi volume `vb` (needs growing). -/
def cEqGrow : Cluster :=
  ⟨1, [⟨"pgdata-a-0", "ve"⟩, ⟨"pgdata-b-0", "vb"⟩],
   [⟨"ve", 21474836480, "default", "pgdata-a-0"⟩, pvVb10]⟩

theorem listPersistentVolumes_filter_forall₂ (replicas : Int)
    (server : List PersistentVolume) :
    ∀ (pvcs : List PersistentVolumeClaim) (pvs : List PersistentVolume),
      listPersistentVolumes replicas server pvcs = .ok pvs →
      List.Forall₂ (fun pvc pv => findPV server pvc.volumeName = some pv)
        (pvcs.filter fun pvc => eligibleB replicas pvc.name) pvs := by
  intro pvcs
  induction pvcs with
  | nil =>
    intro pvs h
    simp only [listPersistentVolumes] at h
    cases h
    simp
  | cons pvc rest ih =>
    intro pvs h
    rw [listPersistentVolumes] at h
    rcases he : claimEligibility replicas pvc.name with e | b
    · rw [he] at h; cases h
    · rw [he] at h
      cases b with
      | false =>
        simp only [Bool.false_eq_true, if_false] at h
        rw [List.filter_cons_of_neg (by simp [eligibleB, he])]
        exact ih pvs h
      | true =>
        simp only [if_true] at h
        rcases hf : findPV server pvc.volumeName with _ | pv
        · rw [hf] at h; cases h
        · rw [hf] at h
          rcases hr : listPersistentVolumes replicas server rest with e2 | tail
          · rw [hr] at h; cases h
          · rw [hr] at h
            cases h
            rw [List.filter_cons_of_pos (by simp [eligibleB, he])]
            exact List.Forall₂.cons hf (ih tail hr)

theorem claimEligibility_excluded_iff (replicas : Int) (name : String) :
    claimEligibility replicas name = .ok false ↔
      ∃ d, lastDashIdx name = some d ∧ 0 < d ∧ d + 1 < name.length ∧
        ∃ n, atoi (strSuffixFrom name (d + 1)) = some n ∧
          toInt32 n > toInt32 (replicas - 1) := by
  unfold claimEligibility
  rcases hld : lastDashIdx name with _ | d
  · simp
  · dsimp only
    by_cases hc : 0 < d ∧ d + 1 < name.length
    · rw [if_pos hc]
      rcases ha : atoi (strSuffixFrom name (d + 1)) with _ | n
      · simp [ha]
      · dsimp only
        by_cases hgt : toInt32 n > toInt32 (replicas - 1)
        · rw [if_pos hgt]
          constructor
          · intro _
            exact ⟨d, rfl, hc.1, hc.2, n, ha, hgt⟩
          · intro _; rfl
        · rw [if_neg hgt]
          constructor
          · intro h; cases h
          · rintro ⟨d', hd', _, _, n', hn', hgt'⟩
            cases hd'
            rw [ha] at hn'
            cases hn'
            exact absurd hgt' hgt
    · rw [if_neg hc]
      simp only [Option.some.injEq]
      constructor
      · intro h; cases h
      · rintro ⟨d', hd', h1, h2, _⟩
        cases hd'
        exact absurd ⟨h1, h2⟩ hc

theorem lt_of_div_lt_div {g a b : Nat} (h : a / g < b / g) : a < b := by
  by_contra hab
  exact absurd (Nat.div_le_div_right (Nat.le_of_not_lt hab)) (Nat.not_le_of_lt h)

@[simp] theorem emit_total (st : RunState) (e : REvent) : (emit st e).total = st.total := rfl

@[simp] theorem emit_server (st : RunState) (e : REvent) : (emit st e).server = st.server := rfl

@[simp] theorem emit_connected (st : RunState) (e : REvent) : (emit st e).connected = st.connected := rfl

@[simp] theorem emit_deferred (st : RunState) (e : REvent) : (emit st e).deferred = st.deferred := rfl

@[simp] theorem emit_pending (st : RunState) (e : REvent) : (emit st e).pending = st.pending := rfl

@[simp] theorem emit_events (st : RunState) (e : REvent) : (emit st e).events = st.events ++ [e] := rfl

theorem stepConnect_total (i : Nat) (rz : VolumeResizer) (pvIdx : Nat) (st : RunState) :
    (stepConnect i rz pvIdx st).1.total = st.total := by
  unfold stepConnect
  split_ifs <;> rfl

theorem stepConnect_server (i : Nat) (rz : VolumeResizer) (pvIdx : Nat) (st : RunState) :
    (stepConnect i rz pvIdx st).1.server = st.server := by
  unfold stepConnect
  split_ifs <;> rfl

theorem stepOps_total (env : ResizeEnv) (i : Nat) (rz : VolumeResizer) (pvIdx : Nat)
    (pv : PersistentVolume) (ns nq : Nat) (st : RunState) :
    (stepOps env i rz pvIdx pv ns nq st).1.total = st.total := by
  unfold stepOps
  rcases rz.providerId pv with _ | vid
  · rfl
  · dsimp only
    by_cases hr : rz.resizeOk vid ns
    · rw [if_pos hr]
      rcases getPodNameFromPersistentVolume pv with _ | pod
      · rfl
      · dsimp only
        split_ifs <;> rfl
    · rw [if_neg hr]
      rfl

theorem stepMatched_total (env : ResizeEnv) (i : Nat) (rz : VolumeResizer) (pvIdx : Nat)
    (pv : PersistentVolume) (ns nq : Nat) (st : RunState) :
    (stepMatched env i rz pvIdx pv ns nq st).1.total = st.total := by
  unfold stepMatched
  have hc := stepConnect_total i rz pvIdx st
  rcases hsc : stepConnect i rz pvIdx st with ⟨st', r⟩
  rw [hsc] at hc
  cases r
  · dsimp only
    rw [stepOps_total]
    exact hc
  · exact hc

theorem stepResizer_total (env : ResizeEnv) (i : Nat) (rz : VolumeResizer) (pvIdx : Nat)
    (pv : PersistentVolume) (ns nq : Nat) (st : RunState) :
    (stepResizer env i rz pvIdx pv ns nq st).1.total =
      if rz.belongs pv then st.total + 1 else st.total := by
  unfold stepResizer
  by_cases hb : rz.belongs pv
  · rw [if_pos hb, if_pos hb]
    rw [stepMatched_total]
    rfl
  · rw [if_neg hb, if_neg hb]
    rfl

theorem setCapacity_idem (s : List PersistentVolume) (n : String) (q : Nat) :
    setCapacity (setCapacity s n q) n q = setCapacity s n q := by
  induction s with
  | nil => rfl
  | cons p rest ih =>
    by_cases hp : p.name = n
    · rw [setCapacity, if_pos hp, setCapacity, if_pos hp]
    · rw [setCapacity, if_neg hp, setCapacity, if_neg hp, ih]

theorem stepConnect_cases (i : Nat) (rz : VolumeResizer) (pvIdx : Nat) (st : RunState) :
    (stepConnect i rz pvIdx st).1.server = st.server ∧
    ((stepConnect i rz pvIdx st).2 = none ∨
      (stepConnect i rz pvIdx st).2 = some (.connectError i)) := by
  unfold stepConnect
  split_ifs <;> exact ⟨rfl, by simp⟩

theorem stepOps_cases (env : ResizeEnv) (i : Nat) (rz : VolumeResizer) (pvIdx : Nat)
    (pv : PersistentVolume) (ns nq : Nat) (st : RunState) :
    ((stepOps env i rz pvIdx pv ns nq st).2 = none ∧
      (stepOps env i rz pvIdx pv ns nq st).1.server = setCapacity st.server pv.name nq) ∨
    ((stepOps env i rz pvIdx pv ns nq st).1.server = st.server ∧
      ∃ e, (stepOps env i rz pvIdx pv ns nq st).2 = some e ∧
        e ≠ .noCompatibleProvider ∧ e ≠ .shrinkNotSupported) := by
  unfold stepOps
  rcases rz.providerId pv with _ | vid
  · exact Or.inr ⟨rfl, .providerIdError i, rfl, fun h => ResizeError.noConfusion h, fun h => ResizeError.noConfusion h⟩
  · dsimp only
    by_cases hr : rz.resizeOk vid ns
    · rw [if_pos hr]
      rcases getPodNameFromPersistentVolume pv with _ | pod
      · exact Or.inr ⟨rfl, .substringPanic pv.claimRefName, rfl,
          fun h => ResizeError.noConfusion h, fun h => ResizeError.noConfusion h⟩
      · dsimp only
        by_cases hf : env.fsResizeOk pod
        · rw [if_pos hf]
          by_cases hu : env.updateOk pv.name
          · rw [if_pos hu]
            exact Or.inl ⟨rfl, rfl⟩
          · rw [if_neg hu]
            exact Or.inr ⟨rfl, .updateError pv.name, rfl,
              fun h => ResizeError.noConfusion h, fun h => ResizeError.noConfusion h⟩
        · rw [if_neg hf]
          exact Or.inr ⟨rfl, .fsResizeError pod, rfl,
            fun h => ResizeError.noConfusion h, fun h => ResizeError.noConfusion h⟩
    · rw [if_neg hr]
      exact Or.inr ⟨rfl, .blockResizeError i vid, rfl,
        fun h => ResizeError.noConfusion h, fun h => ResizeError.noConfusion h⟩

theorem stepMatched_cases (env : ResizeEnv) (i : Nat) (rz : VolumeResizer) (pvIdx : Nat)
    (pv : PersistentVolume) (ns nq : Nat) (st : RunState) :
    ((stepMatched env i rz pvIdx pv ns nq st).2 = none ∧
      (stepMatched env i rz pvIdx pv ns nq st).1.server =
        setCapacity st.server pv.name nq) ∨
    ((stepMatched env i rz pvIdx pv ns nq st).1.server = st.server ∧
      ∃ e, (stepMatched env i rz pvIdx pv ns nq st).2 = some e ∧
        e ≠ .noCompatibleProvider ∧ e ≠ .shrinkNotSupported) := by
  unfold stepMatched
  have hcc := stepConnect_cases i rz pvIdx st
  rcases hsc : stepConnect i rz pvIdx st with ⟨st', r⟩
  rw [hsc] at hcc
  cases r with
  | none =>
    dsimp only
    rcases stepOps_cases env i rz pvIdx pv ns nq st' with ⟨h1, h2⟩ | ⟨h1, e, h2, h3, h4⟩
    · exact Or.inl ⟨h1, by rw [h2, hcc.1]⟩
    · exact Or.inr ⟨by rw [h1, hcc.1], e, h2, h3, h4⟩
  | some e =>
    rcases hcc.2 with h | h
    · cases h
    · cases h
      exact Or.inr ⟨hcc.1, .connectError i, rfl, fun h => ResizeError.noConfusion h, fun h => ResizeError.noConfusion h⟩

theorem stepResizer_not_belongs (env : ResizeEnv) (i : Nat) (rz : VolumeResizer)
    (pvIdx : Nat) (pv : PersistentVolume) (ns nq : Nat) (st : RunState)
    (hb : rz.belongs pv = false) :
    stepResizer env i rz pvIdx pv ns nq st = (emit st (.belongsCheck i pvIdx), none) := by
  unfold stepResizer
  rw [hb]
  rfl

theorem stepResizer_belongs_eq (env : ResizeEnv) (i : Nat) (rz : VolumeResizer)
    (pvIdx : Nat) (pv : PersistentVolume) (ns nq : Nat) (st : RunState)
    (hb : rz.belongs pv = true) :
    stepResizer env i rz pvIdx pv ns nq st =
      stepMatched env i rz pvIdx pv ns nq
        { emit st (.belongsCheck i pvIdx) with total := st.total + 1 } := by
  unfold stepResizer
  rw [hb]
  rfl

theorem stepResizer_cases (env : ResizeEnv) (i : Nat) (rz : VolumeResizer) (pvIdx : Nat)
    (pv : PersistentVolume) (ns nq : Nat) (st : RunState) :
    ((stepResizer env i rz pvIdx pv ns nq st).2 = none ∧
      ((stepResizer env i rz pvIdx pv ns nq st).1.server = st.server ∨
        (stepResizer env i rz pvIdx pv ns nq st).1.server =
          setCapacity st.server pv.name nq)) ∨
    ((stepResizer env i rz pvIdx pv ns nq st).1.server = st.server ∧
      ∃ e, (stepResizer env i rz pvIdx pv ns nq st).2 = some e ∧
        e ≠ .noCompatibleProvider ∧ e ≠ .shrinkNotSupported) := by
  by_cases hb : rz.belongs pv
  · rw [stepResizer_belongs_eq env i rz pvIdx pv ns nq st hb]
    rcases stepMatched_cases env i rz pvIdx pv ns nq
        { emit st (.belongsCheck i pvIdx) with total := st.total + 1 } with
      ⟨h1, h2⟩ | ⟨h1, e, h2, h3, h4⟩
    · exact Or.inl ⟨h1, Or.inr h2⟩
    · exact Or.inr ⟨h1, e, h2, h3, h4⟩
  · rw [stepResizer_not_belongs env i rz pvIdx pv ns nq st (Bool.of_not_eq_true hb)]
    exact Or.inl ⟨rfl, Or.inl rfl⟩

theorem stepResizer_set_of_none (env : ResizeEnv) (i : Nat) (rz : VolumeResizer)
    (pvIdx : Nat) (pv : PersistentVolume) (ns nq : Nat) (st : RunState)
    (hb : rz.belongs pv = true)
    (hn : (stepResizer env i rz pvIdx pv ns nq st).2 = none) :
    (stepResizer env i rz pvIdx pv ns nq st).1.server =
      setCapacity st.server pv.name nq := by
  rw [stepResizer_belongs_eq env i rz pvIdx pv ns nq st hb] at hn ⊢
  rcases stepMatched_cases env i rz pvIdx pv ns nq
      { emit st (.belongsCheck i pvIdx) with total := st.total + 1 } with
    ⟨h1, h2⟩ | ⟨h1, e, h2, h3, h4⟩
  · exact h2
  · rw [h2] at hn
    cases hn

theorem processResizers_total_mono (env : ResizeEnv) (pvIdx : Nat)
    (pv : PersistentVolume) (ns nq : Nat) :
    ∀ (l : List VolumeResizer) (i : Nat) (st : RunState),
      st.total ≤ (processResizers env pvIdx pv ns nq i l st).1.total := by
  intro l
  induction l with
  | nil => intro i st; exact Nat.le_refl _
  | cons rz rest ih =>
    intro i st
    rw [processResizers]
    have ht := stepResizer_total env i rz pvIdx pv ns nq st
    rcases hs : stepResizer env i rz pvIdx pv ns nq st with ⟨st', r⟩
    rw [hs] at ht
    have hle : st.total ≤ st'.total := by
      rw [ht]; split_ifs <;> omega
    cases r with
    | some e => exact hle
    | none => exact le_trans hle (ih (i + 1) st')

theorem processResizers_err (env : ResizeEnv) (pvIdx : Nat)
    (pv : PersistentVolume) (ns nq : Nat) :
    ∀ (l : List VolumeResizer) (i : Nat) (st : RunState) (e : ResizeError),
      (processResizers env pvIdx pv ns nq i l st).2 = some e →
      e ≠ .noCompatibleProvider ∧ e ≠ .shrinkNotSupported := by
  intro l
  induction l with
  | nil => intro i st e h; cases h
  | cons rz rest ih =>
    intro i st e h
    rw [processResizers] at h
    have hc := stepResizer_cases env i rz pvIdx pv ns nq st
    rcases hs : stepResizer env i rz pvIdx pv ns nq st with ⟨st', r⟩
    rw [hs] at hc h
    cases r with
    | some e1 =>
      cases h
      rcases hc with ⟨h1, _⟩ | ⟨_, e2, h2, h3, h4⟩
      · cases h1
      · cases h2
        exact ⟨h3, h4⟩
    | none => exact ih (i + 1) st' e h

theorem processResizers_match (env : ResizeEnv) (pvIdx : Nat)
    (pv : PersistentVolume) (ns nq : Nat) :
    ∀ (l : List VolumeResizer) (i : Nat) (st : RunState),
      (∃ rz ∈ l, rz.belongs pv = true) →
      st.total < (processResizers env pvIdx pv ns nq i l st).1.total := by
  intro l
  induction l with
  | nil => rintro i st ⟨rz, hmem, _⟩; cases hmem
  | cons rz rest ih =>
    rintro i st ⟨rz0, hmem, hbel⟩
    rw [processResizers]
    have ht := stepResizer_total env i rz pvIdx pv ns nq st
    rcases hs : stepResizer env i rz pvIdx pv ns nq st with ⟨st', r⟩
    rw [hs] at ht
    by_cases hb : rz.belongs pv
    · rw [if_pos hb] at ht
      have ht' : st'.total = st.total + 1 := ht
      cases r with
      | some e => dsimp only; omega
      | none =>
        dsimp only
        have := processResizers_total_mono env pvIdx pv ns nq rest (i + 1) st'
        omega
    · have hb' : rz.belongs pv = false := Bool.of_not_eq_true hb
      rw [if_neg hb] at ht
      have hrz0 : rz0 ∈ rest := by
        rcases List.mem_cons.mp hmem with h | h
        · rw [h] at hbel; rw [hbel] at hb'; cases hb'
        · exact h
      cases r with
      | some e =>
        rcases stepResizer_cases env i rz pvIdx pv ns nq st with ⟨h1, _⟩ | ⟨_, e2, h2, _, _⟩
        · rw [hs] at h1; cases h1
        · rw [stepResizer_not_belongs env i rz pvIdx pv ns nq st hb'] at h2
          cases h2
      | none =>
        dsimp only
        have ht' : st'.total = st.total := ht
        have := ih (i + 1) st' ⟨rz0, hrz0, hbel⟩
        omega

theorem processResizers_nomatch (env : ResizeEnv) (pvIdx : Nat)
    (pv : PersistentVolume) (ns nq : Nat) :
    ∀ (l : List VolumeResizer) (i : Nat) (st : RunState),
      (∀ rz ∈ l, rz.belongs pv = false) →
      (processResizers env pvIdx pv ns nq i l st).2 = none ∧
      (processResizers env pvIdx pv ns nq i l st).1.total = st.total ∧
      (processResizers env pvIdx pv ns nq i l st).1.server = st.server := by
  intro l
  induction l with
  | nil => intro i st _; exact ⟨rfl, rfl, rfl⟩
  | cons rz rest ih =>
    intro i st hall
    rw [processResizers,
      stepResizer_not_belongs env i rz pvIdx pv ns nq st (hall rz (List.mem_cons_self rz rest))]
    exact ih (i + 1) (emit st (.belongsCheck i pvIdx))
      (fun rz' h => hall rz' (List.mem_cons_of_mem rz h))

theorem processResizers_server (env : ResizeEnv) (pvIdx : Nat)
    (pv : PersistentVolume) (ns nq : Nat) :
    ∀ (l : List VolumeResizer) (i : Nat) (st : RunState),
      (processResizers env pvIdx pv ns nq i l st).1.server = st.server ∨
      (processResizers env pvIdx pv ns nq i l st).1.server =
        setCapacity st.server pv.name nq := by
  intro l
  induction l with
  | nil => intro i st; exact Or.inl rfl
  | cons rz rest ih =>
    intro i st
    rw [processResizers]
    have hc := stepResizer_cases env i rz pvIdx pv ns nq st
    rcases hs : stepResizer env i rz pvIdx pv ns nq st with ⟨st', r⟩
    rw [hs] at hc
    have hsrv : st'.server = st.server ∨ st'.server = setCapacity st.server pv.name nq := by
      rcases hc with ⟨_, h⟩ | ⟨h, _⟩
      · exact h
      · exact Or.inl h
    cases r with
    | some e => exact hsrv
    | none =>
      dsimp only
      rcases ih (i + 1) st' with h | h <;> rcases hsrv with h2 | h2
      · exact Or.inl (h.trans h2)
      · exact Or.inr (h.trans h2)
      · exact Or.inr (by rw [h, h2])
      · exact Or.inr (by rw [h, h2, setCapacity_idem])

theorem processVolumes_total_mono (env : ResizeEnv) (rzs : List VolumeResizer)
    (ns nq : Nat) :
    ∀ (l : List PersistentVolume) (j : Nat) (st : RunState),
      st.total ≤ (processVolumes env rzs ns nq j l st).1.total := by
  intro l
  induction l with
  | nil => intro j st; exact Nat.le_refl _
  | cons pv rest ih =>
    intro j st
    rw [processVolumes]
    by_cases hgt : quantityToGigabyte pv.capacity > ns
    · rw [if_pos hgt]
    · rw [if_neg hgt]
      by_cases heq : quantityToGigabyte pv.capacity = ns
      · rw [if_pos heq]
        exact ih (j + 1) st
      · rw [if_neg heq]
        have hm := processResizers_total_mono env j pv ns nq rzs 0 st
        rcases hr : processResizers env j pv ns nq 0 rzs st with ⟨st', r⟩
        rw [hr] at hm
        have hm' : st.total ≤ st'.total := hm
        cases r with
        | some e => exact hm'
        | none => exact le_trans hm' (ih (j + 1) st')

theorem processVolumes_err (env : ResizeEnv) (rzs : List VolumeResizer)
    (ns nq : Nat) :
    ∀ (l : List PersistentVolume) (j : Nat) (st : RunState) (e : ResizeError),
      (processVolumes env rzs ns nq j l st).2 = some e →
      e ≠ .noCompatibleProvider := by
  intro l
  induction l with
  | nil => intro j st e h; cases h
  | cons pv rest ih =>
    intro j st e h
    rw [processVolumes] at h
    by_cases hgt : quantityToGigabyte pv.capacity > ns
    · rw [if_pos hgt] at h
      cases h
      exact fun hh => ResizeError.noConfusion hh
    · rw [if_neg hgt] at h
      by_cases heq : quantityToGigabyte pv.capacity = ns
      · rw [if_pos heq] at h
        exact ih (j + 1) st e h
      · rw [if_neg heq] at h
        rcases hr : processResizers env j pv ns nq 0 rzs st with ⟨st', r⟩
        rw [hr] at h
        cases r with
        | some e1 =>
          cases h
          exact (processResizers_err env j pv ns nq rzs 0 st e (by rw [hr])).1
        | none => exact ih (j + 1) st' e h

theorem processVolumes_ok_le (env : ResizeEnv) (rzs : List VolumeResizer)
    (ns nq : Nat) :
    ∀ (l : List PersistentVolume) (j : Nat) (st : RunState),
      (processVolumes env rzs ns nq j l st).2 = none →
      ∀ p ∈ l, quantityToGigabyte p.capacity ≤ ns := by
  intro l
  induction l with
  | nil => intro j st _ p hp; cases hp
  | cons pv rest ih =>
    intro j st h p hp
    rw [processVolumes] at h
    by_cases hgt : quantityToGigabyte pv.capacity > ns
    · rw [if_pos hgt] at h
      cases h
    · rw [if_neg hgt] at h
      rcases List.mem_cons.mp hp with hpv | hpv
      · rw [hpv]
        exact Nat.le_of_not_lt hgt
      · by_cases heq : quantityToGigabyte pv.capacity = ns
        · rw [if_pos heq] at h
          exact ih (j + 1) st h p hpv
        · rw [if_neg heq] at h
          rcases hr : processResizers env j pv ns nq 0 rzs st with ⟨st', r⟩
          rw [hr] at h
          cases r with
          | some e1 => cases h
          | none => exact ih (j + 1) st' h p hpv

theorem processVolumes_nomatch (env : ResizeEnv) (rzs : List VolumeResizer)
    (ns nq : Nat) :
    ∀ (l : List PersistentVolume) (j : Nat) (st : RunState),
      (∀ p ∈ l, quantityToGigabyte p.capacity ≤ ns) →
      (∀ p ∈ l, quantityToGigabyte p.capacity < ns →
        ∀ rz ∈ rzs, rz.belongs p = false) →
      (processVolumes env rzs ns nq j l st).2 = none ∧
      (processVolumes env rzs ns nq j l st).1.total = st.total := by
  intro l
  induction l with
  | nil => intro j st _ _; exact ⟨rfl, rfl⟩
  | cons pv rest ih =>
    intro j st hle hnm
    rw [processVolumes]
    have hgt : ¬ quantityToGigabyte pv.capacity > ns :=
      Nat.not_lt.mpr (hle pv (List.mem_cons_self pv rest))
    rw [if_neg hgt]
    by_cases heq : quantityToGigabyte pv.capacity = ns
    · rw [if_pos heq]
      exact ih (j + 1) st (fun p hp => hle p (List.mem_cons_of_mem pv hp))
        (fun p hp => hnm p (List.mem_cons_of_mem pv hp))
    · rw [if_neg heq]
      have hlt : quantityToGigabyte pv.capacity < ns :=
        Nat.lt_of_le_of_ne (Nat.le_of_not_lt hgt) heq
      have hpr := processResizers_nomatch env j pv ns nq rzs 0 st
        (hnm pv (List.mem_cons_self pv rest) hlt)
      rcases hr : processResizers env j pv ns nq 0 rzs st with ⟨st', r⟩
      rw [hr] at hpr
      cases r with
      | some e => cases hpr.1
      | none =>
        dsimp only
        have := ih (j + 1) st' (fun p hp => hle p (List.mem_cons_of_mem pv hp))
          (fun p hp => hnm p (List.mem_cons_of_mem pv hp))
        exact ⟨this.1, this.2.trans hpr.2.1⟩

theorem processVolumes_match (env : ResizeEnv) (rzs : List VolumeResizer)
    (ns nq : Nat) :
    ∀ (l : List PersistentVolume) (j : Nat) (st : RunState),
      (∃ p ∈ l, quantityToGigabyte p.capacity < ns ∧
        ∃ rz ∈ rzs, rz.belongs p = true) →
      (processVolumes env rzs ns nq j l st).2 = none →
      st.total < (processVolumes env rzs ns nq j l st).1.total := by
  intro l
  induction l with
  | nil => rintro j st ⟨p, hp, _⟩; cases hp
  | cons pv rest ih =>
    rintro j st ⟨p, hp, hplt, hprz⟩ hnone
    rw [processVolumes] at hnone ⊢
    by_cases hgt : quantityToGigabyte pv.capacity > ns
    · rw [if_pos hgt] at hnone
      cases hnone
    · rw [if_neg hgt] at hnone ⊢
      by_cases heq : quantityToGigabyte pv.capacity = ns
      · rw [if_pos heq] at hnone ⊢
        have hprest : p ∈ rest := by
          rcases List.mem_cons.mp hp with h | h
          · rw [h, heq] at hplt; exact absurd hplt (lt_irrefl ns)
          · exact h
        exact ih (j + 1) st ⟨p, hprest, hplt, hprz⟩ hnone
      · rw [if_neg heq] at hnone ⊢
        rcases hr : processResizers env j pv ns nq 0 rzs st with ⟨st', r⟩
        rw [hr] at hnone
        cases r with
        | some e => cases hnone
        | none =>
          dsimp only at hnone ⊢
          rcases List.mem_cons.mp hp with h | h
          · have h1 : st.total < st'.total := by
              have h2 := processResizers_match env j pv ns nq rzs 0 st
                (by rw [h] at hprz; exact hprz)
              rw [hr] at h2
              exact h2
            exact lt_of_lt_of_le h1 (processVolumes_total_mono env rzs ns nq rest (j + 1) st')
          · have h1 : st.total ≤ st'.total := by
              have h2 := processResizers_total_mono env j pv ns nq rzs 0 st
              rw [hr] at h2
              exact h2
            exact lt_of_le_of_lt h1 (ih (j + 1) st' ⟨p, h, hplt, hprz⟩ hnone)

theorem resizeVolumes_run (c : Cluster) (v : VolumeSpec) (rzs : List VolumeResizer)
    (env : ResizeEnv) (nq : Nat) (pvs : List PersistentVolume)
    (hp : parseQuantity v.size = some nq)
    (hl : listPersistentVolumes c.replicas c.serverPVs c.pvcs = .ok pvs) :
    resizeVolumes c v rzs env =
      ⟨match (processVolumes env rzs (quantityToGigabyte nq) nq 0 pvs
          ⟨rzs.map (·.initConnected), [], 0, c.serverPVs, [], 0⟩).2 with
        | some e => some e
        | none =>
          if 0 < pvs.length ∧
              (processVolumes env rzs (quantityToGigabyte nq) nq 0 pvs
                ⟨rzs.map (·.initConnected), [], 0, c.serverPVs, [], 0⟩).1.total = 0 then
            some .noCompatibleProvider
          else none,
       (processVolumes env rzs (quantityToGigabyte nq) nq 0 pvs
          ⟨rzs.map (·.initConnected), [], 0, c.serverPVs, [], 0⟩).1.events ++
         flushDeferred rzs (processVolumes env rzs (quantityToGigabyte nq) nq 0 pvs
          ⟨rzs.map (·.initConnected), [], 0, c.serverPVs, [], 0⟩).1,
       (processVolumes env rzs (quantityToGigabyte nq) nq 0 pvs
          ⟨rzs.map (·.initConnected), [], 0, c.serverPVs, [], 0⟩).1.server⟩ := by
  unfold resizeVolumes listVolumesWithManifestSize
  rw [hp, hl]

/-- Claim C1 (amended): given a successfully listed batch, `resize` returns
the `NoCompatibleProvider` error exactly when the batch is non-empty, no
volume exceeds the target, and no supplied backend's ownership predicate
matches any volume whose current size in whole gigabytes is strictly below
the target — in particular a non-empty batch in which every volume already
equals the target size also returns `NoCompatibleProvider`, not nil, because
`totalCompatible` remains zero. -/
theorem C1_noCompatibleProvider_iff :
    ∀ (c : Cluster) (v : VolumeSpec) (rzs : List VolumeResizer) (env : ResizeEnv)
      (nq : Nat) (pvs : List PersistentVolume),
      parseQuantity v.size = some nq →
      listPersistentVolumes c.replicas c.serverPVs c.pvcs = .ok pvs →
      ((resizeVolumes c v rzs env).res = some .noCompatibleProvider ↔
        pvs ≠ [] ∧
        (∀ pv ∈ pvs, quantityToGigabyte pv.capacity ≤ quantityToGigabyte nq) ∧
        (∀ pv ∈ pvs, quantityToGigabyte pv.capacity < quantityToGigabyte nq →
          ∀ rz ∈ rzs, rz.belongs pv = false)) := by
  intro c v rzs env nq pvs hp hl
  rw [resizeVolumes_run c v rzs env nq pvs hp hl]
  rcases hout : processVolumes env rzs (quantityToGigabyte nq) nq 0 pvs
      ⟨rzs.map (·.initConnected), [], 0, c.serverPVs, [], 0⟩ with ⟨st', r⟩
  rw [hout]
  cases r with
  | some e =>
    dsimp only
    constructor
    · intro h
      cases h
      exact absurd rfl (processVolumes_err env rzs (quantityToGigabyte nq) nq pvs 0
        ⟨rzs.map (·.initConnected), [], 0, c.serverPVs, [], 0⟩ .noCompatibleProvider
        (by rw [hout]))
    · rintro ⟨hne, hle, hnm⟩
      have := processVolumes_nomatch env rzs (quantityToGigabyte nq) nq pvs 0
        ⟨rzs.map (·.initConnected), [], 0, c.serverPVs, [], 0⟩ hle hnm
      rw [hout] at this
      cases this.1
  | none =>
    dsimp only
    constructor
    · intro h
      by_cases hcond : 0 < pvs.length ∧ st'.total = 0
      · refine ⟨List.length_pos.mp hcond.1, ?_, ?_⟩
        · intro pv hpv
          exact processVolumes_ok_le env rzs (quantityToGigabyte nq) nq pvs 0
            ⟨rzs.map (·.initConnected), [], 0, c.serverPVs, [], 0⟩ (by rw [hout]) pv hpv
        · intro pv hpv hlt rz hrz
          by_contra hbel
          have hmatch : ∃ p ∈ pvs, quantityToGigabyte p.capacity < quantityToGigabyte nq ∧
              ∃ rz' ∈ rzs, rz'.belongs p = true :=
            ⟨pv, hpv, hlt, rz, hrz, Bool.not_eq_false (rz.belongs pv) ▸
              (Bool.eq_true_of_not_eq_false hbel)⟩
          have := processVolumes_match env rzs (quantityToGigabyte nq) nq pvs 0
            ⟨rzs.map (·.initConnected), [], 0, c.serverPVs, [], 0⟩ hmatch (by rw [hout])
          rw [hout] at this
          dsimp only at this
          omega
      · rw [if_neg hcond] at h
        cases h
    · rintro ⟨hne, hle, hnm⟩
      have hnm2 := processVolumes_nomatch env rzs (quantityToGigabyte nq) nq pvs 0
        ⟨rzs.map (·.initConnected), [], 0, c.serverPVs, [], 0⟩ hle hnm
      rw [hout] at hnm2
      dsimp only at hnm2
      rw [if_pos ⟨List.length_pos.mpr hne, hnm2.2⟩]

theorem C1_witness :
    (resizeVolumes cA10 ⟨"20Gi"⟩ [] envAllOk).res = some .noCompatibleProvider :=
  (C1_noCompatibleProvider_iff cA10 ⟨"20Gi"⟩ [] envAllOk 21474836480 [pvVa] rfl rfl).mpr
    ⟨by decide, by decide, by decide⟩

theorem processVolumes_skip_pre (env : ResizeEnv) (rzs : List VolumeResizer)
    (ns nq : Nat) :
    ∀ (l1 l2 : List PersistentVolume) (j : Nat) (st : RunState),
      (∀ p ∈ l1, quantityToGigabyte p.capacity = ns) →
      processVolumes env rzs ns nq j (l1 ++ l2) st =
        processVolumes env rzs ns nq (j + l1.length) l2 st := by
  intro l1
  induction l1 with
  | nil => intro l2 j st _; rfl
  | cons p rest ih =>
    intro l2 j st hall
    have hp := hall p (List.mem_cons_self p rest)
    rw [List.cons_append, processVolumes]
    rw [if_neg (by omega), if_pos hp]
    rw [ih l2 (j + 1) st (fun q hq => hall q (List.mem_cons_of_mem p hq))]
    have : j + 1 + rest.length = j + (p :: rest).length := by
      simp
      omega
    rw [this]

/-- Claim C3 (amended): if the first volume in batch order whose current size
differs from the target exceeds the target, `resize` returns the
`ShrinkNotSupported` error, performs no store capacity update for any volume,
makes no backend call at all, and leaves every recorded capacity unchanged.
(The original claim — that this holds whenever any volume in the batch exceeds
the target — is false: volumes earlier in the batch that need growing are
resized and updated before the shrinking volume aborts the batch.) -/
theorem C3_shrink_aborts_cleanly :
    ∀ (c : Cluster) (v : VolumeSpec) (rzs : List VolumeResizer) (env : ResizeEnv)
      (nq : Nat) (pre post : List PersistentVolume) (pv : PersistentVolume),
      parseQuantity v.size = some nq →
      listPersistentVolumes c.replicas c.serverPVs c.pvcs = .ok (pre ++ pv :: post) →
      (∀ p ∈ pre, quantityToGigabyte p.capacity = quantityToGigabyte nq) →
      quantityToGigabyte pv.capacity > quantityToGigabyte nq →
      resizeVolumes c v rzs env = ⟨some .shrinkNotSupported, [], c.serverPVs⟩ := by
  intro c v rzs env nq pre post pv hp hl hpre hgt
  rw [resizeVolumes_run c v rzs env nq (pre ++ pv :: post) hp hl]
  rw [processVolumes_skip_pre env rzs (quantityToGigabyte nq) nq pre (pv :: post)
    0 ⟨rzs.map (·.initConnected), [], 0, c.serverPVs, [], 0⟩ hpre]
  rw [processVolumes, if_pos hgt]
  rfl

theorem C3_witness :
    resizeVolumes cEqShrink ⟨"20Gi"⟩ [rzAll] envAllOk =
      ⟨some .shrinkNotSupported, [], cEqShrink.serverPVs⟩ :=
  C3_shrink_aborts_cleanly cEqShrink ⟨"20Gi"⟩ [rzAll] envAllOk 21474836480
    [⟨"ve", 21474836480, "default", "pgdata-a-0"⟩] [] pvVb30 rfl rfl
    (by decide) (by decide)

theorem stepConnect_events_ext (i : Nat) (rz : VolumeResizer) (pvIdx : Nat)
    (st : RunState) :
    ∃ l, (stepConnect i rz pvIdx st).1.events = st.events ++ l ∧
      ∀ e ∈ l, e.pvIdx? = some pvIdx := by
  unfold stepConnect
  split_ifs
  · exact ⟨[], by simp, by simp⟩
  · exact ⟨[.connect i pvIdx], rfl, by simp [REvent.pvIdx?]⟩
  · exact ⟨[.connect i pvIdx], rfl, by simp [REvent.pvIdx?]⟩

theorem stepOps_events_ext (env : ResizeEnv) (i : Nat) (rz : VolumeResizer)
    (pvIdx : Nat) (pv : PersistentVolume) (ns nq : Nat) (st : RunState) :
    ∃ l, (stepOps env i rz pvIdx pv ns nq st).1.events = st.events ++ l ∧
      ∀ e ∈ l, e.pvIdx? = some pvIdx := by
  unfold stepOps
  rcases rz.providerId pv with _ | vid
  · exact ⟨[.getProviderID i pvIdx], rfl, by simp [REvent.pvIdx?]⟩
  · dsimp only
    by_cases hr : rz.resizeOk vid ns
    · rw [if_pos hr]
      rcases getPodNameFromPersistentVolume pv with _ | pod
      · exact ⟨[.getProviderID i pvIdx, .blockResize i pvIdx vid ns], by simp,
          by simp [REvent.pvIdx?]⟩
      · dsimp only
        by_cases hf : env.fsResizeOk pod
        · rw [if_pos hf]
          by_cases hu : env.updateOk pv.name
          · rw [if_pos hu]
            exact ⟨[.getProviderID i pvIdx, .blockResize i pvIdx vid ns,
              .fsResize pvIdx pod, .storeUpdate pvIdx pv.name nq], by simp,
              by simp [REvent.pvIdx?]⟩
          · rw [if_neg hu]
            exact ⟨[.getProviderID i pvIdx, .blockResize i pvIdx vid ns,
              .fsResize pvIdx pod], by simp, by simp [REvent.pvIdx?]⟩
        · rw [if_neg hf]
          exact ⟨[.getProviderID i pvIdx, .blockResize i pvIdx vid ns,
            .fsResize pvIdx pod], by simp, by simp [REvent.pvIdx?]⟩
    · rw [if_neg hr]
      exact ⟨[.getProviderID i pvIdx, .blockResize i pvIdx vid ns], by simp,
        by simp [REvent.pvIdx?]⟩

theorem stepResizer_events_ext (env : ResizeEnv) (i : Nat) (rz : VolumeResizer)
    (pvIdx : Nat) (pv : PersistentVolume) (ns nq : Nat) (st : RunState) :
    ∃ l, (stepResizer env i rz pvIdx pv ns nq st).1.events = st.events ++ l ∧
      ∀ e ∈ l, e.pvIdx? = some pvIdx := by
  by_cases hb : rz.belongs pv
  · rw [stepResizer_belongs_eq env i rz pvIdx pv ns nq st hb]
    unfold stepMatched
    have hce := stepConnect_events_ext i rz pvIdx
      { emit st (.belongsCheck i pvIdx) with total := st.total + 1 }
    rcases hsc : stepConnect i rz pvIdx
        { emit st (.belongsCheck i pvIdx) with total := st.total + 1 } with ⟨st', r⟩
    rw [hsc] at hce
    rcases hce with ⟨l1, hl1, htag1⟩
    cases r with
    | some e =>
      refine ⟨.belongsCheck i pvIdx :: l1, ?_, ?_⟩
      · rw [hl1]; simp
      · intro e he
        rcases List.mem_cons.mp he with h | h
        · rw [h]; rfl
        · exact htag1 e h
    | none =>
      dsimp only
      rcases stepOps_events_ext env i rz pvIdx pv ns nq st' with ⟨l2, hl2, htag2⟩
      refine ⟨.belongsCheck i pvIdx :: (l1 ++ l2), ?_, ?_⟩
      · rw [hl2, hl1]; simp
      · intro e he
        rcases List.mem_cons.mp he with h | h
        · rw [h]; rfl
        · rcases List.mem_append.mp h with h2 | h2
          · exact htag1 e h2
          · exact htag2 e h2
  · rw [stepResizer_not_belongs env i rz pvIdx pv ns nq st (Bool.of_not_eq_true hb)]
    exact ⟨[.belongsCheck i pvIdx], rfl, by simp [REvent.pvIdx?]⟩

theorem processResizers_events_ext (env : ResizeEnv) (pvIdx : Nat)
    (pv : PersistentVolume) (ns nq : Nat) :
    ∀ (l : List VolumeResizer) (i : Nat) (st : RunState),
      ∃ tl, (processResizers env pvIdx pv ns nq i l st).1.events = st.events ++ tl ∧
        ∀ e ∈ tl, e.pvIdx? = some pvIdx := by
  intro l
  induction l with
  | nil => intro i st; exact ⟨[], by simp [processResizers], by simp⟩
  | cons rz rest ih =>
    intro i st
    rw [processResizers]
    have hse := stepResizer_events_ext env i rz pvIdx pv ns nq st
    rcases hs : stepResizer env i rz pvIdx pv ns nq st with ⟨st', r⟩
    rw [hs] at hse
    rcases hse with ⟨l1, hl1, htag1⟩
    cases r with
    | some e => exact ⟨l1, hl1, htag1⟩
    | none =>
      dsimp only
      rcases ih (i + 1) st' with ⟨l2, hl2, htag2⟩
      refine ⟨l1 ++ l2, ?_, ?_⟩
      · rw [hl2, hl1]; simp
      · intro e he
        rcases List.mem_append.mp he with h | h
        · exact htag1 e h
        · exact htag2 e h

theorem processVolumes_events_ext (env : ResizeEnv) (rzs : List VolumeResizer)
    (ns nq : Nat) :
    ∀ (l : List PersistentVolume) (j : Nat) (st : RunState),
      ∃ tl, (processVolumes env rzs ns nq j l st).1.events = st.events ++ tl ∧
        ∀ e ∈ tl, ∃ k p, l.get? k = some p ∧ e.pvIdx? = some (j + k) ∧
          quantityToGigabyte p.capacity ≠ ns := by
  intro l
  induction l with
  | nil => intro j st; exact ⟨[], by simp [processVolumes], by simp⟩
  | cons pv rest ih =>
    intro j st
    rw [processVolumes]
    by_cases hgt : quantityToGigabyte pv.capacity > ns
    · rw [if_pos hgt]
      exact ⟨[], by simp, by simp⟩
    · rw [if_neg hgt]
      by_cases heq : quantityToGigabyte pv.capacity = ns
      · rw [if_pos heq]
        rcases ih (j + 1) st with ⟨tl, htl, htag⟩
        refine ⟨tl, htl, ?_⟩
        intro e he
        rcases htag e he with ⟨k, p, hk, hkt, hne⟩
        exact ⟨k + 1, p, by simpa using hk, by rw [hkt]; exact congrArg some (by omega), hne⟩
      · rw [if_neg heq]
        have hpr := processResizers_events_ext env j pv ns nq rzs 0 st
        rcases hr : processResizers env j pv ns nq 0 rzs st with ⟨st', r⟩
        rw [hr] at hpr
        rcases hpr with ⟨l1, hl1, htag1⟩
        have hhead : ∀ e ∈ l1, ∃ k p, (pv :: rest).get? k = some p ∧
            e.pvIdx? = some (j + k) ∧ quantityToGigabyte p.capacity ≠ ns := by
          intro e he
          exact ⟨0, pv, rfl, by rw [htag1 e he]; exact congrArg some (by omega), heq⟩
        cases r with
        | some e => exact ⟨l1, hl1, hhead⟩
        | none =>
          dsimp only
          rcases ih (j + 1) st' with ⟨l2, hl2, htag2⟩
          refine ⟨l1 ++ l2, by rw [hl2, hl1]; simp, ?_⟩
          intro e he
          rcases List.mem_append.mp he with h | h
          · exact hhead e h
          · rcases htag2 e h with ⟨k, p, hk, hkt, hne⟩
            exact ⟨k + 1, p, by simpa using hk,
              by rw [hkt]; exact congrArg some (by omega), hne⟩

theorem flushDeferred_pvIdx (rzs : List VolumeResizer) (st : RunState) :
    ∀ e ∈ flushDeferred rzs st, e.pvIdx? = none := by
  intro e he
  rcases List.mem_map.mp he with ⟨i, _, hi⟩
  rw [← hi]
  rfl

/-- Claim C5: for every listed volume whose current size in whole gigabytes
equals the parsed target, `resize` performs zero backend calls for that
volume — no ownership test, no connect, no provider-volume-id resolution, no
block resize, no filesystem resize — and performs no store capacity update for
it: no event of the run concerns that volume's batch index. -/
theorem C5_equal_size_untouched :
    ∀ (c : Cluster) (v : VolumeSpec) (rzs : List VolumeResizer) (env : ResizeEnv)
      (nq : Nat) (pvs : List PersistentVolume) (j : Nat) (pv : PersistentVolume),
      parseQuantity v.size = some nq →
      listPersistentVolumes c.replicas c.serverPVs c.pvcs = .ok pvs →
      pvs.get? j = some pv →
      quantityToGigabyte pv.capacity = quantityToGigabyte nq →
      ∀ e ∈ (resizeVolumes c v rzs env).events, e.pvIdx? ≠ some j := by
  intro c v rzs env nq pvs j pv hp hl hj heq
  rw [resizeVolumes_run c v rzs env nq pvs hp hl]
  intro e he
  dsimp only at he
  rcases List.mem_append.mp he with h | h
  · rcases processVolumes_events_ext env rzs (quantityToGigabyte nq) nq pvs 0
        ⟨rzs.map (·.initConnected), [], 0, c.serverPVs, [], 0⟩ with ⟨tl, htl, htag⟩
    rw [htl] at h
    rcases List.mem_append.mp h with h2 | h2
    · cases h2
    · rcases htag e h2 with ⟨k, p, hk, hkt, hne⟩
      rw [hkt]
      intro hcontra
      have hkj : k = j := by
        have := Option.some.inj hcontra
        omega
      rw [hkj, hj] at hk
      cases hk
      exact hne heq
  · rw [flushDeferred_pvIdx rzs _ e h]
    exact fun hcontra => Option.noConfusion hcontra

theorem C5_witness :
    (resizeVolumes cEqGrow ⟨"20Gi"⟩ [rzAll] envAllOk).events.countP
      (fun e => e.pvIdx? == some 0) = 0 := by
  rw [List.countP_eq_zero]
  intro e he
  have h := C5_equal_size_untouched cEqGrow ⟨"20Gi"⟩ [rzAll] envAllOk 21474836480
    [⟨"ve", 21474836480, "default", "pgdata-a-0"⟩, pvVb10] 0
    ⟨"ve", 21474836480, "default", "pgdata-a-0"⟩ rfl rfl rfl (by decide) e he
  intro hc
  exact h (by simpa using hc)

theorem findPV_cons (p : PersistentVolume) (rest : List PersistentVolume) (m : String) :
    findPV (p :: rest) m = if p.name = m then some p else findPV rest m := by
  by_cases h : p.name = m
  · rw [if_pos h]
    unfold findPV
    simp [List.find?_cons, h]
  · rw [if_neg h]
    unfold findPV
    simp [List.find?_cons, h]

theorem findPV_setCapacity (n : String) (q : Nat) :
    ∀ (server : List PersistentVolume) (m : String),
      findPV (setCapacity server n q) m =
        if m = n then (findPV server n).map (fun p => { p with capacity := q })
        else findPV server m := by
  intro server
  induction server with
  | nil =>
    intro m
    split_ifs <;> rfl
  | cons p rest ih =>
    intro m
    by_cases hp : p.name = n
    · rw [setCapacity, if_pos hp]
      by_cases hm : m = n
      · rw [if_pos hm, findPV_cons, findPV_cons,
          if_pos (show p.name = m from hp.trans hm.symm),
          if_pos (show p.name = n from hp)]
        rfl
      · rw [if_neg hm, findPV_cons, findPV_cons,
          if_neg (show ¬ p.name = m from fun hc => hm ((hc.symm.trans hp))),
          if_neg (show ¬ p.name = m from fun hc => hm ((hc.symm.trans hp)))]
    · rw [setCapacity, if_neg hp]
      by_cases hm : m = n
      · rw [if_pos hm, findPV_cons, findPV_cons,
          if_neg (show ¬ p.name = m from fun hc => hp (hc.trans hm)),
          if_neg (show ¬ p.name = n from hp)]
        have hih := ih m
        rw [if_pos hm] at hih
        exact hih
      · rw [if_neg hm, findPV_cons, findPV_cons]
        by_cases hbm : p.name = m
        · rw [if_pos hbm, if_pos hbm]
        · rw [if_neg hbm, if_neg hbm]
          have hih := ih m
          rw [if_neg hm] at hih
          exact hih

theorem map_cap_idem (o : Option PersistentVolume) (q : Nat) :
    (o.map (fun p => { p with capacity := q })).map (fun p => { p with capacity := q }) =
      o.map (fun p => { p with capacity := q }) := by
  cases o <;> rfl

theorem listPersistentVolumes_mem_find (replicas : Int)
    (server : List PersistentVolume) :
    ∀ (pvcs : List PersistentVolumeClaim) (pvs : List PersistentVolume),
      listPersistentVolumes replicas server pvcs = .ok pvs →
      ∀ pv ∈ pvs, findPV server pv.name = some pv := by
  intro pvcs
  induction pvcs with
  | nil =>
    intro pvs h pv hpv
    simp only [listPersistentVolumes] at h
    cases h
    cases hpv
  | cons pvc rest ih =>
    intro pvs h pv hpv
    rw [listPersistentVolumes] at h
    rcases he : claimEligibility replicas pvc.name with e | b
    · rw [he] at h; cases h
    · rw [he] at h
      cases b with
      | false =>
        simp only [Bool.false_eq_true, if_false] at h
        exact ih pvs h pv hpv
      | true =>
        simp only [if_true] at h
        rcases hf : findPV server pvc.volumeName with _ | pv0
        · rw [hf] at h; cases h
        · rw [hf] at h
          rcases hr : listPersistentVolumes replicas server rest with e2 | tail
          · rw [hr] at h; cases h
          · rw [hr] at h
            cases h
            rcases List.mem_cons.mp hpv with h2 | h2
            · have hname : pv0.name = pvc.volumeName := by
                have := List.find?_some hf
                simpa using this
              rw [h2, hname]
              rw [← hname] at hf
              rw [hname] at hf
              exact hf
            · exact ih tail hr pv h2

theorem processVolumes_server_inv (env : ResizeEnv) (rzs : List VolumeResizer)
    (ns nq : Nat) (init : List PersistentVolume) (pvsAll : List PersistentVolume) :
    ∀ (l : List PersistentVolume) (j : Nat) (st : RunState),
      (∀ p ∈ l, p ∈ pvsAll) →
      (∀ n, findPV st.server n = findPV init n ∨
        ∃ p ∈ pvsAll, p.name = n ∧ quantityToGigabyte p.capacity < ns ∧
          findPV st.server n = (findPV init n).map (fun q => { q with capacity := nq })) →
      ∀ n, findPV (processVolumes env rzs ns nq j l st).1.server n = findPV init n ∨
        ∃ p ∈ pvsAll, p.name = n ∧ quantityToGigabyte p.capacity < ns ∧
          findPV (processVolumes env rzs ns nq j l st).1.server n =
            (findPV init n).map (fun q => { q with capacity := nq }) := by
  intro l
  induction l with
  | nil =>
    intro j st _ hinv n
    simp only [processVolumes]
    exact hinv n
  | cons pv rest ih =>
    intro j st hsub hinv n
    rw [processVolumes]
    by_cases hgt : quantityToGigabyte pv.capacity > ns
    · rw [if_pos hgt]
      exact hinv n
    · rw [if_neg hgt]
      by_cases heq : quantityToGigabyte pv.capacity = ns
      · rw [if_pos heq]
        exact ih (j + 1) st (fun p hp => hsub p (List.mem_cons_of_mem pv hp)) hinv n
      · rw [if_neg heq]
        have hlt : quantityToGigabyte pv.capacity < ns :=
          Nat.lt_of_le_of_ne (Nat.le_of_not_lt hgt) heq
        have hpv : pv ∈ pvsAll := hsub pv (List.mem_cons_self pv rest)
        have hsrv := processResizers_server env j pv ns nq rzs 0 st
        rcases hr : processResizers env j pv ns nq 0 rzs st with ⟨st', r⟩
        rw [hr] at hsrv
        have hinv' : ∀ m, findPV st'.server m = findPV init m ∨
            ∃ p ∈ pvsAll, p.name = m ∧ quantityToGigabyte p.capacity < ns ∧
              findPV st'.server m = (findPV init m).map (fun q => { q with capacity := nq }) := by
          intro m
          rcases hsrv with hsame | hset
          · rw [hsame]; exact hinv m
          · rw [hset, findPV_setCapacity pv.name nq st.server m]
            by_cases hm : m = pv.name
            · rw [if_pos hm]
              rcases hinv pv.name with h | ⟨p, hpmem, hpname, hplt, h⟩
              · rw [h, hm]
                exact Or.inr ⟨pv, hpv, rfl, hlt, rfl⟩
              · rw [h, map_cap_idem, hm]
                exact Or.inr ⟨pv, hpv, rfl, hlt, rfl⟩
            · rw [if_neg hm]
              exact hinv m
        cases r with
        | some e => exact hinv' n
        | none =>
          dsimp only
          exact ih (j + 1) st' (fun p hp => hsub p (List.mem_cons_of_mem pv hp)) hinv' n

theorem resizeVolumes_server_evol (c : Cluster) (v : VolumeSpec)
    (rzs : List VolumeResizer) (env : ResizeEnv) (nq : Nat)
    (pvs : List PersistentVolume)
    (hp : parseQuantity v.size = some nq)
    (hl : listPersistentVolumes c.replicas c.serverPVs c.pvcs = .ok pvs) :
    ∀ n, findPV (resizeVolumes c v rzs env).server n = findPV c.serverPVs n ∨
      ∃ p ∈ pvs, p.name = n ∧
        quantityToGigabyte p.capacity < quantityToGigabyte nq ∧
        findPV (resizeVolumes c v rzs env).server n =
          (findPV c.serverPVs n).map (fun q => { q with capacity := nq }) := by
  rw [resizeVolumes_run c v rzs env nq pvs hp hl]
  intro n
  exact processVolumes_server_inv env rzs (quantityToGigabyte nq) nq c.serverPVs pvs
    pvs 0 ⟨rzs.map (·.initConnected), [], 0, c.serverPVs, [], 0⟩
    (fun p hp2 => hp2) (fun m => Or.inl rfl) n

/-- Claim C4: under every execution of `resize`, a volume's recorded capacity
is never set below its current value — the stored record either stays exactly
as it was, or (only for a listed volume whose size in whole gigabytes is
strictly below the target) is rewritten to the parsed manifest quantity, which
is no smaller than the previous capacity; hence recorded capacities are
monotonically non-decreasing across calls. -/
theorem C4_grow_only :
    ∀ (c : Cluster) (v : VolumeSpec) (rzs : List VolumeResizer) (env : ResizeEnv),
      (∀ (n : String) (p q : PersistentVolume),
        findPV c.serverPVs n = some p →
        findPV (resizeVolumes c v rzs env).server n = some q →
        p.capacity ≤ q.capacity) ∧
      (∀ (nq : Nat) (pvs : List PersistentVolume),
        parseQuantity v.size = some nq →
        listPersistentVolumes c.replicas c.serverPVs c.pvcs = .ok pvs →
        ∀ n, findPV (resizeVolumes c v rzs env).server n = findPV c.serverPVs n ∨
          ∃ p ∈ pvs, p.name = n ∧
            quantityToGigabyte p.capacity < quantityToGigabyte nq ∧
            findPV (resizeVolumes c v rzs env).server n =
              (findPV c.serverPVs n).map (fun q => { q with capacity := nq })) := by
  intro c v rzs env
  constructor
  · intro n p q hfind hfinal
    rcases hparse : parseQuantity v.size with _ | nq
    · have : (resizeVolumes c v rzs env).server = c.serverPVs := by
        unfold resizeVolumes
        rw [hparse]
      rw [this, hfind] at hfinal
      cases hfinal
      exact Nat.le_refl _
    · rcases hlist : listPersistentVolumes c.replicas c.serverPVs c.pvcs with e | pvs
      · have : (resizeVolumes c v rzs env).server = c.serverPVs := by
          unfold resizeVolumes listVolumesWithManifestSize
          rw [hparse, hlist]
        rw [this, hfind] at hfinal
        cases hfinal
        exact Nat.le_refl _
      · rcases resizeVolumes_server_evol c v rzs env nq pvs hparse hlist n with
          hsame | ⟨p', hp'mem, hp'name, hp'lt, hset⟩
        · rw [hsame, hfind] at hfinal
          cases hfinal
          exact Nat.le_refl _
        · rw [hset, hfind] at hfinal
          cases hfinal
          have hpp' : p' = p := by
            have := listPersistentVolumes_mem_find c.replicas c.serverPVs c.pvcs pvs
              hlist p' hp'mem
            rw [hp'name, hfind] at this
            exact (Option.some.inj this).symm
          have hlt2 : p.capacity < nq := by
            apply lt_of_div_lt_div
            rw [← hpp']
            exact hp'lt
          exact Nat.le_of_lt hlt2
  · intro nq pvs hparse hlist
    exact resizeVolumes_server_evol c v rzs env nq pvs hparse hlist

theorem C4_witness :
    pvVa.capacity ≤ 21474836480 :=
  (C4_grow_only cA10 ⟨"20Gi"⟩ [rzAll] envAllOk).1 "va" pvVa
    ⟨"va", 21474836480, "default", "pgdata-a-0"⟩ rfl rfl

theorem getD_set_self (l : List Bool) (i : Nat) (h : i < l.length) :
    (l.set i true).getD i false = true := by
  simp [List.getD, List.getElem?_set_self', List.getElem?_eq_getElem h]

theorem getD_set_ne (l : List Bool) (i k : Nat) (h : k ≠ i) :
    (l.set i true).getD k false = l.getD k false := by
  simp [List.getD, List.getElem?_set_ne (show i ≠ k from fun hc => h hc.symm)]

theorem countP_snoc (p : REvent → Bool) (l : List REvent) (a : REvent) :
    (l ++ [a]).countP p = l.countP p + if p a then 1 else 0 := by
  rw [List.countP_append]
  simp [List.countP_cons]

theorem getD_map_initConnected (rzs : List VolumeResizer) (k : Nat) :
    (rzs.map (·.initConnected)).getD k false = initAt rzs k := by
  unfold initAt
  rcases h : rzs.get? k with _ | rz
  · have hk : rzs.length ≤ k := List.get?_eq_none.mp h
    rw [List.getD_eq_default]
    · rfl
    · simpa using hk
  · have hk : k < rzs.length := by
      by_contra hc
      rw [List.get?_eq_none.mpr (Nat.le_of_not_lt hc)] at h
      cases h
    rw [List.getD_eq_getElem _ _ (by simpa using hk)]
    simp only [List.getElem_map]
    have : rzs[k] = rz := by
      have := List.get?_eq_get (l := rzs) hk
      rw [h] at this
      exact (Option.some.inj this).symm
    rw [this]
    rfl

theorem connectOkAt_eq (rzs : List VolumeResizer) (i : Nat) (rz : VolumeResizer)
    (h : rzs.get? i = some rz) : connectOkAt rzs i = rz.connectOk := by
  unfold connectOkAt
  rw [h]
  rfl

theorem initAt_eq (rzs : List VolumeResizer) (i : Nat) (rz : VolumeResizer)
    (h : rzs.get? i = some rz) : initAt rzs i = rz.initConnected := by
  unfold initAt
  rw [h]
  rfl

theorem isDisconnectE_of_any (i : Nat) (e : REvent) (h : isDisconnectAny e = false) :
    isDisconnectE i e = false := by
  cases e <;> first | rfl | exact absurd h (by simp [isDisconnectAny])

theorem stepOps_frame (env : ResizeEnv) (i : Nat) (rz : VolumeResizer) (pvIdx : Nat)
    (pv : PersistentVolume) (ns nq : Nat) (st : RunState) :
    (stepOps env i rz pvIdx pv ns nq st).1.connected = st.connected ∧
    (stepOps env i rz pvIdx pv ns nq st).1.deferred = st.deferred ∧
    (stepOps env i rz pvIdx pv ns nq st).1.pending = st.pending ∧
    ∃ l, (stepOps env i rz pvIdx pv ns nq st).1.events = st.events ++ l ∧
      ∀ e ∈ l, (∀ k, isConnectE k e = false) ∧ isDisconnectAny e = false := by
  unfold stepOps
  rcases rz.providerId pv with _ | vid
  · exact ⟨rfl, rfl, rfl, [.getProviderID i pvIdx], rfl,
      by simp [isConnectE, isDisconnectAny]⟩
  · dsimp only
    by_cases hr : rz.resizeOk vid ns
    · rw [if_pos hr]
      rcases getPodNameFromPersistentVolume pv with _ | pod
      · exact ⟨rfl, rfl, rfl, [.getProviderID i pvIdx, .blockResize i pvIdx vid ns],
          by simp, by simp [isConnectE, isDisconnectAny]⟩
      · dsimp only
        by_cases hf : env.fsResizeOk pod
        · rw [if_pos hf]
          by_cases hu : env.updateOk pv.name
          · rw [if_pos hu]
            exact ⟨rfl, rfl, rfl, [.getProviderID i pvIdx, .blockResize i pvIdx vid ns,
              .fsResize pvIdx pod, .storeUpdate pvIdx pv.name nq],
              by simp, by simp [isConnectE, isDisconnectAny]⟩
          · rw [if_neg hu]
            exact ⟨rfl, rfl, rfl, [.getProviderID i pvIdx, .blockResize i pvIdx vid ns,
              .fsResize pvIdx pod], by simp, by simp [isConnectE, isDisconnectAny]⟩
        · rw [if_neg hf]
          exact ⟨rfl, rfl, rfl, [.getProviderID i pvIdx, .blockResize i pvIdx vid ns,
            .fsResize pvIdx pod], by simp, by simp [isConnectE, isDisconnectAny]⟩
    · rw [if_neg hr]
      exact ⟨rfl, rfl, rfl, [.getProviderID i pvIdx, .blockResize i pvIdx vid ns],
        by simp, by simp [isConnectE, isDisconnectAny]⟩

theorem isConnectAnyE_of_not (e : REvent) (h : ∀ k, isConnectE k e = false) :
    isConnectAnyE e = false := by
  cases e
  case connect b p => exact absurd (h b) (by simp [isConnectE])
  all_goals rfl

theorem capinv_weaken (rzs : List VolumeResizer) (st : RunState) (h : CapInv rzs st) :
    CapInvErr rzs st := by
  refine ⟨h.2.2.1, h.2.2.2.1, ?_⟩
  intro i
  have hc5 := h.2.2.2.2.1 i
  by_cases hc : st.connected.getD i false = true
  · rw [if_pos hc] at hc5
    exact hc5
  · rw [if_neg hc] at hc5
    omega

theorem resolve_preserves_cap (rzs : List VolumeResizer) (st : RunState) (t : Nat)
    (hcap : CapInv rzs st) :
    CapInv rzs { st with deferred := st.deferred ++ List.replicate st.pending t,
                         pending := 0 } := by
  refine ⟨hcap.1, hcap.2.1, hcap.2.2.1, hcap.2.2.2.1, hcap.2.2.2.2.1, ?_⟩
  show (st.deferred ++ List.replicate st.pending t).length + 0 =
    st.events.countP isConnectAnyE
  rw [List.length_append, List.length_replicate, Nat.add_zero]
  exact hcap.2.2.2.2.2

theorem neutral_preserves_cap (rzs : List VolumeResizer) (st st' : RunState)
    (hconn : st'.connected = st.connected) (hdef : st'.deferred = st.deferred)
    (hpend : st'.pending = st.pending)
    (hev : ∃ l, st'.events = st.events ++ l ∧
      ∀ e ∈ l, (∀ k, isConnectE k e = false) ∧ isDisconnectAny e = false)
    (hcap : CapInv rzs st) : CapInv rzs st' := by
  rcases hev with ⟨l, hl, hle⟩
  have hz : ∀ k, l.countP (isConnectE k) = 0 := fun k => List.countP_eq_zero.mpr
    (fun e he => by rw [(hle e he).1 k]; exact fun hc => Bool.noConfusion hc)
  have hzA : l.countP isConnectAnyE = 0 := List.countP_eq_zero.mpr
    (fun e he => by
      rw [isConnectAnyE_of_not e (hle e he).1]
      exact fun hc => Bool.noConfusion hc)
  refine ⟨by rw [hconn]; exact hcap.1, by rw [hconn]; exact hcap.2.1, ?_, ?_, ?_, ?_⟩
  · intro e he
    rw [hl] at he
    rcases List.mem_append.mp he with h | h
    · exact hcap.2.2.1 e h
    · exact (hle e h).2
  · intro k hk
    rw [hl, List.countP_append, hz, Nat.add_zero]
    exact hcap.2.2.2.1 k hk
  · intro k
    rw [hl, List.countP_append, hz, Nat.add_zero, hconn]
    exact hcap.2.2.2.2.1 k
  · rw [hl, List.countP_append, hzA, Nat.add_zero, hdef, hpend]
    exact hcap.2.2.2.2.2

theorem neutral_preserves_caperr (rzs : List VolumeResizer) (st st' : RunState)
    (hev : ∃ l, st'.events = st.events ++ l ∧
      ∀ e ∈ l, (∀ k, isConnectE k e = false) ∧ isDisconnectAny e = false)
    (hcap : CapInvErr rzs st) : CapInvErr rzs st' := by
  rcases hev with ⟨l, hl, hle⟩
  have hz : ∀ k, l.countP (isConnectE k) = 0 := fun k => List.countP_eq_zero.mpr
    (fun e he => by rw [(hle e he).1 k]; exact fun hc => Bool.noConfusion hc)
  refine ⟨?_, ?_, ?_⟩
  · intro e he
    rw [hl] at he
    rcases List.mem_append.mp he with h | h
    · exact hcap.1 e h
    · exact (hle e h).2
  · intro k hk
    rw [hl, List.countP_append, hz, Nat.add_zero]
    exact hcap.2.1 k hk
  · intro k
    rw [hl, List.countP_append, hz, Nat.add_zero]
    exact hcap.2.2 k

theorem stepConnect_cap (rzs : List VolumeResizer) (i : Nat) (rz : VolumeResizer)
    (pvIdx : Nat) (st : RunState) (hrz : rzs.get? i = some rz)
    (hcap : CapInv rzs st) :
    ((stepConnect i rz pvIdx st).2 = none → CapInv rzs (stepConnect i rz pvIdx st).1) ∧
    ((stepConnect i rz pvIdx st).2 ≠ none →
      CapInvErr rzs (stepConnect i rz pvIdx st).1) := by
  have hilen : i < st.connected.length := by
    rw [hcap.1]
    by_contra hc
    rw [List.get?_eq_none.mpr (Nat.le_of_not_lt hc)] at hrz
    cases hrz
  unfold stepConnect
  by_cases hc : st.connected.getD i false
  · rw [if_pos hc]
    exact ⟨fun _ => hcap, fun h => absurd rfl h⟩
  · rw [if_neg hc]
    have hcf : st.connected.getD i false = false := Bool.of_not_eq_true hc
    have hini : initAt rzs i = false := by
      by_contra hi
      have := hcap.2.1 i (Bool.eq_true_of_not_eq_false hi)
      rw [this] at hcf
      cases hcf
    have hcnt0 : st.events.countP (isConnectE i) = 0 := by
      have hc5 := hcap.2.2.2.2.1 i
      rw [if_neg (fun h => by rw [h] at hcf; cases hcf)] at hc5
      exact hc5
    by_cases hok : rz.connectOk
    · rw [if_pos hok]
      refine ⟨fun _ => ⟨?_, ?_, ?_, ?_, ?_, ?_⟩, fun h => absurd rfl h⟩
      · rw [List.length_set]
        exact hcap.1
      · intro k hk
        simp only [emit_connected]
        by_cases hki : k = i
        · subst hki
          exact getD_set_self st.connected k hilen
        · rw [getD_set_ne st.connected i k hki]
          exact hcap.2.1 k hk
      · intro e he
        simp only [emit_events] at he
        rcases List.mem_append.mp he with h | h
        · exact hcap.2.2.1 e h
        · rw [show e = REvent.connect i pvIdx by simpa using h]
          rfl
      · intro k hk
        have hki : k ≠ i := fun hc2 => by rw [hc2, hini] at hk; cases hk
        simp only [emit_events]
        rw [countP_snoc, if_neg (by simp [isConnectE]; exact fun hc2 => hki hc2.symm),
          Nat.add_zero]
        exact hcap.2.2.2.1 k hk
      · intro k
        simp only [emit_events, emit_connected]
        by_cases hki : k = i
        · subst hki
          rw [getD_set_self st.connected k hilen, if_pos rfl, countP_snoc, hcnt0,
            if_pos (by simp [isConnectE])]
        · rw [getD_set_ne st.connected i k hki]
          have hsn : (st.events ++ [REvent.connect i pvIdx]).countP (isConnectE k) =
              st.events.countP (isConnectE k) := by
            rw [countP_snoc, if_neg (by simp [isConnectE]; exact fun hc2 => hki hc2.symm),
              Nat.add_zero]
          rw [hsn]
          exact hcap.2.2.2.2.1 k
      · simp only [emit_events, emit_deferred, emit_pending]
        rw [countP_snoc, if_pos (show isConnectAnyE (.connect i pvIdx) = true from rfl)]
        have hb := hcap.2.2.2.2.2
        omega
    · rw [if_neg hok]
      refine ⟨fun h => Option.noConfusion h, fun _ => ⟨?_, ?_, ?_⟩⟩
      · intro e he
        simp only [emit_events] at he
        rcases List.mem_append.mp he with h | h
        · exact hcap.2.2.1 e h
        · rw [show e = REvent.connect i pvIdx by simpa using h]
          rfl
      · intro k hk
        have hki : k ≠ i := fun hc2 => by rw [hc2, hini] at hk; cases hk
        simp only [emit_events]
        rw [countP_snoc, if_neg (by simp [isConnectE]; exact fun hc2 => hki hc2.symm),
          Nat.add_zero]
        exact hcap.2.2.2.1 k hk
      · intro k
        simp only [emit_events]
        rw [countP_snoc]
        by_cases hki : k = i
        · subst hki
          rw [hcnt0, if_pos (by simp [isConnectE])]
        · rw [if_neg (by simp [isConnectE]; exact fun hc2 => hki hc2.symm), Nat.add_zero]
          have hc5 := hcap.2.2.2.2.1 k
          by_cases hck : st.connected.getD k false = true
          · rw [if_pos hck] at hc5
            exact hc5
          · rw [if_neg hck] at hc5
            omega

theorem stepMatched_cap (env : ResizeEnv) (rzs : List VolumeResizer) (i : Nat)
    (rz : VolumeResizer) (pvIdx : Nat) (pv : PersistentVolume) (ns nq : Nat)
    (st : RunState) (hrz : rzs.get? i = some rz) (hcap : CapInv rzs st) :
    ((stepMatched env i rz pvIdx pv ns nq st).2 = none →
      CapInv rzs (stepMatched env i rz pvIdx pv ns nq st).1) ∧
    ((stepMatched env i rz pvIdx pv ns nq st).2 ≠ none →
      CapInvErr rzs (stepMatched env i rz pvIdx pv ns nq st).1) := by
  unfold stepMatched
  have hci := stepConnect_cap rzs i rz pvIdx st hrz hcap
  rcases hsc : stepConnect i rz pvIdx st with ⟨st1, r1⟩
  rw [hsc] at hci
  cases r1 with
  | some e =>
    exact ⟨fun h => Option.noConfusion h, fun _ => hci.2 (fun hc => Option.noConfusion hc)⟩
  | none =>
    dsimp only
    have hcap1 : CapInv rzs st1 := hci.1 rfl
    have hf := stepOps_frame env i rz pvIdx pv ns nq st1
    exact ⟨fun _ => neutral_preserves_cap rzs st1 _ hf.1 hf.2.1 hf.2.2.1 hf.2.2.2 hcap1,
      fun _ => neutral_preserves_caperr rzs st1 _ hf.2.2.2 (capinv_weaken rzs st1 hcap1)⟩

theorem stepResizer_cap (env : ResizeEnv) (rzs : List VolumeResizer) (i : Nat)
    (rz : VolumeResizer) (pvIdx : Nat) (pv : PersistentVolume) (ns nq : Nat)
    (st : RunState) (hrz : rzs.get? i = some rz) (hcap : CapInv rzs st) :
    ((stepResizer env i rz pvIdx pv ns nq st).2 = none →
      CapInv rzs (stepResizer env i rz pvIdx pv ns nq st).1) ∧
    ((stepResizer env i rz pvIdx pv ns nq st).2 ≠ none →
      CapInvErr rzs (stepResizer env i rz pvIdx pv ns nq st).1) := by
  by_cases hb : rz.belongs pv
  · rw [stepResizer_belongs_eq env i rz pvIdx pv ns nq st hb]
    have hcapR : CapInv rzs
        { emit st (.belongsCheck i pvIdx) with total := st.total + 1 } :=
      neutral_preserves_cap rzs st _ rfl rfl rfl
        ⟨[.belongsCheck i pvIdx], rfl, by simp [isConnectE, isDisconnectAny]⟩ hcap
    exact stepMatched_cap env rzs i rz pvIdx pv ns nq _ hrz hcapR
  · rw [stepResizer_not_belongs env i rz pvIdx pv ns nq st (Bool.of_not_eq_true hb)]
    exact ⟨fun _ => neutral_preserves_cap rzs st _ rfl rfl rfl
        ⟨[.belongsCheck i pvIdx], rfl, by simp [isConnectE, isDisconnectAny]⟩ hcap,
      fun h => absurd rfl h⟩

theorem processResizers_cap (env : ResizeEnv) (pvIdx : Nat) (pv : PersistentVolume)
    (ns nq : Nat) (rzs : List VolumeResizer) :
    ∀ (l : List VolumeResizer) (i0 : Nat) (st : RunState),
      (∀ k, k < l.length → rzs.get? (i0 + k) = l.get? k) →
      CapInv rzs st →
      ((processResizers env pvIdx pv ns nq i0 l st).2 = none →
        CapInv rzs (processResizers env pvIdx pv ns nq i0 l st).1 ∧
        (processResizers env pvIdx pv ns nq i0 l st).1.pending = 0) ∧
      ((processResizers env pvIdx pv ns nq i0 l st).2 ≠ none →
        CapInvErr rzs (processResizers env pvIdx pv ns nq i0 l st).1) := by
  intro l
  induction l with
  | nil =>
    intro i0 st _ hcap
    exact ⟨fun _ => ⟨resolve_preserves_cap rzs st (i0 - 1) hcap, rfl⟩,
      fun h => absurd rfl h⟩
  | cons rz rest ih =>
    intro i0 st hidx hcap
    rw [processResizers]
    have hrz : rzs.get? i0 = some rz := by
      have := hidx 0 (by simp)
      simpa using this
    have hsi := stepResizer_cap env rzs i0 rz pvIdx pv ns nq st hrz hcap
    rcases hs : stepResizer env i0 rz pvIdx pv ns nq st with ⟨st1, r1⟩
    rw [hs] at hsi
    cases r1 with
    | some e =>
      dsimp only
      exact ⟨fun h => Option.noConfusion h,
        fun _ => hsi.2 (fun hc => Option.noConfusion hc)⟩
    | none =>
      dsimp only
      refine ih (i0 + 1) st1 (fun k hk => ?_) (hsi.1 rfl)
      have := hidx (k + 1) (by simpa using Nat.succ_lt_succ hk)
      rw [show i0 + (k + 1) = i0 + 1 + k by omega] at this
      simpa using this

theorem processVolumes_cap (env : ResizeEnv) (rzs : List VolumeResizer)
    (ns nq : Nat) :
    ∀ (l : List PersistentVolume) (j : Nat) (st : RunState),
      CapInv rzs st → st.pending = 0 →
      ((processVolumes env rzs ns nq j l st).2 = none →
        CapInv rzs (processVolumes env rzs ns nq j l st).1 ∧
        (processVolumes env rzs ns nq j l st).1.pending = 0) ∧
      ((processVolumes env rzs ns nq j l st).2 ≠ none →
        CapInvErr rzs (processVolumes env rzs ns nq j l st).1) := by
  intro l
  induction l with
  | nil =>
    intro j st hcap hp0
    exact ⟨fun _ => ⟨hcap, hp0⟩, fun h => absurd rfl h⟩
  | cons pv rest ih =>
    intro j st hcap hp0
    rw [processVolumes]
    by_cases hgt : quantityToGigabyte pv.capacity > ns
    · rw [if_pos hgt]
      exact ⟨fun h => Option.noConfusion h, fun _ => capinv_weaken rzs st hcap⟩
    · rw [if_neg hgt]
      by_cases heq : quantityToGigabyte pv.capacity = ns
      · rw [if_pos heq]
        exact ih (j + 1) st hcap hp0
      · rw [if_neg heq]
        have hpr := processResizers_cap env j pv ns nq rzs rzs 0 st
          (fun k _ => by rw [Nat.zero_add]) hcap
        rcases hr : processResizers env j pv ns nq 0 rzs st with ⟨st1, r1⟩
        rw [hr] at hpr
        cases r1 with
        | some e =>
          exact ⟨fun h => Option.noConfusion h,
            fun _ => hpr.2 (fun hc => Option.noConfusion hc)⟩
        | none =>
          dsimp only
          exact ih (j + 1) st1 (hpr.1 rfl).1 (hpr.1 rfl).2

theorem stepConnect_deferred (i : Nat) (rz : VolumeResizer) (pvIdx : Nat)
    (st : RunState) : (stepConnect i rz pvIdx st).1.deferred = st.deferred := by
  unfold stepConnect
  split_ifs <;> rfl

theorem stepMatched_deferred (env : ResizeEnv) (i : Nat) (rz : VolumeResizer)
    (pvIdx : Nat) (pv : PersistentVolume) (ns nq : Nat) (st : RunState) :
    (stepMatched env i rz pvIdx pv ns nq st).1.deferred = st.deferred := by
  unfold stepMatched
  have hd := stepConnect_deferred i rz pvIdx st
  rcases hsc : stepConnect i rz pvIdx st with ⟨st1, r1⟩
  rw [hsc] at hd
  cases r1 with
  | some e => exact hd
  | none =>
    dsimp only
    rw [(stepOps_frame env i rz pvIdx pv ns nq st1).2.1]
    exact hd

theorem stepResizer_deferred (env : ResizeEnv) (i : Nat) (rz : VolumeResizer)
    (pvIdx : Nat) (pv : PersistentVolume) (ns nq : Nat) (st : RunState) :
    (stepResizer env i rz pvIdx pv ns nq st).1.deferred = st.deferred := by
  by_cases hb : rz.belongs pv
  · rw [stepResizer_belongs_eq env i rz pvIdx pv ns nq st hb, stepMatched_deferred]
    rfl
  · rw [stepResizer_not_belongs env i rz pvIdx pv ns nq st (Bool.of_not_eq_true hb)]
    rfl

theorem processResizers_targets (env : ResizeEnv) (pvIdx : Nat)
    (pv : PersistentVolume) (ns nq : Nat) (rzs : List VolumeResizer) :
    ∀ (l : List VolumeResizer) (i0 : Nat) (st : RunState),
      i0 + l.length = rzs.length →
      (∀ t ∈ st.deferred, t = rzs.length - 1) →
      (processResizers env pvIdx pv ns nq i0 l st).2 = none →
      ∀ t ∈ (processResizers env pvIdx pv ns nq i0 l st).1.deferred,
        t = rzs.length - 1 := by
  intro l
  induction l with
  | nil =>
    intro i0 st hlen htg _ t ht
    have ht' : t ∈ st.deferred ++ List.replicate st.pending (i0 - 1) := ht
    rcases List.mem_append.mp ht' with h | h
    · exact htg t h
    · rw [List.eq_of_mem_replicate h]
      simp only [List.length_nil, Nat.add_zero] at hlen
      omega
  | cons rz rest ih =>
    intro i0 st hlen htg hnone t ht
    rw [processResizers] at hnone ht
    have hd := stepResizer_deferred env i0 rz pvIdx pv ns nq st
    rcases hs : stepResizer env i0 rz pvIdx pv ns nq st with ⟨st1, r1⟩
    rw [hs] at hnone ht hd
    cases r1 with
    | some e => cases hnone
    | none =>
      dsimp only at ht hnone
      refine ih (i0 + 1) st1 ?_ (by rw [hd]; exact htg) hnone t ht
      simp only [List.length_cons] at hlen
      omega

theorem processVolumes_targets (env : ResizeEnv) (rzs : List VolumeResizer)
    (ns nq : Nat) :
    ∀ (l : List PersistentVolume) (j : Nat) (st : RunState),
      (∀ t ∈ st.deferred, t = rzs.length - 1) →
      (processVolumes env rzs ns nq j l st).2 = none →
      ∀ t ∈ (processVolumes env rzs ns nq j l st).1.deferred,
        t = rzs.length - 1 := by
  intro l
  induction l with
  | nil =>
    intro j st htg _ t ht
    exact htg t ht
  | cons pv rest ih =>
    intro j st htg hnone t ht
    rw [processVolumes] at hnone ht
    by_cases hgt : quantityToGigabyte pv.capacity > ns
    · rw [if_pos hgt] at hnone
      cases hnone
    · rw [if_neg hgt] at hnone ht
      by_cases heq : quantityToGigabyte pv.capacity = ns
      · rw [if_pos heq] at hnone ht
        exact ih (j + 1) st htg hnone t ht
      · rw [if_neg heq] at hnone ht
        have hpt := processResizers_targets env j pv ns nq rzs rzs 0 st
          (Nat.zero_add rzs.length) htg
        rcases hr : processResizers env j pv ns nq 0 rzs st with ⟨st1, r1⟩
        rw [hr] at hnone ht hpt
        cases r1 with
        | some e => cases hnone
        | none =>
          dsimp only at ht hnone
          exact ih (j + 1) st1 (fun t2 ht2 => hpt rfl t2 ht2) hnone t ht

theorem flushDeferred_countP_disconnect (rzs : List VolumeResizer) (st : RunState)
    (i : Nat) :
    (flushDeferred rzs st).countP (isDisconnectE i) = st.deferred.count i := by
  unfold flushDeferred
  rw [← List.count_reverse]
  generalize st.deferred.reverse = l
  induction l with
  | nil => rfl
  | cons a t ih =>
    rw [List.map_cons, List.countP_cons, List.count_cons, ih]
    congr 1

theorem flushDeferred_length (rzs : List VolumeResizer) (st : RunState) :
    (flushDeferred rzs st).length = st.deferred.length := by
  unfold flushDeferred
  rw [List.length_map, List.length_reverse]

theorem capture_conclusion (rzs : List VolumeResizer) (st' : RunState)
    (hverr : CapInvErr rzs st') :
    (∀ i, (st'.events ++ flushDeferred rzs st').countP (isConnectE i) ≤ 1) ∧
    (∀ i, initAt rzs i = true →
      (st'.events ++ flushDeferred rzs st').countP (isConnectE i) = 0) := by
  have hfc : ∀ i, (flushDeferred rzs st').countP (isConnectE i) = 0 := by
    intro i
    apply List.countP_eq_zero.mpr
    intro e he
    rcases List.mem_map.mp he with ⟨k, _, hk⟩
    rw [← hk]
    exact fun hc => Bool.noConfusion hc
  constructor
  · intro i
    rw [List.countP_append, hfc, Nat.add_zero]
    exact hverr.2.2 i
  · intro i hini
    rw [List.countP_append, hfc, Nat.add_zero]
    exact hverr.2.1 i hini

theorem capture_balance (rzs : List VolumeResizer) (st' : RunState)
    (hcap : CapInv rzs st') (hp0 : st'.pending = 0)
    (htg : ∀ t ∈ st'.deferred, t = rzs.length - 1) :
    ((st'.events ++ flushDeferred rzs st').countP isDisconnectAny =
      (st'.events ++ flushDeferred rzs st').countP isConnectAnyE) ∧
    (∀ e ∈ st'.events ++ flushDeferred rzs st', isDisconnectAny e = true →
      isDisconnectE (rzs.length - 1) e = true) := by
  have hde : st'.events.countP isDisconnectAny = 0 := List.countP_eq_zero.mpr
    (fun e he hc => by rw [hcap.2.2.1 e he] at hc; cases hc)
  have hdf : (flushDeferred rzs st').countP isDisconnectAny =
      (flushDeferred rzs st').length := by
    rw [List.countP_eq_length]
    intro e he
    rcases List.mem_map.mp he with ⟨k, _, hk⟩
    rw [← hk]
    rfl
  have hcf : (flushDeferred rzs st').countP isConnectAnyE = 0 := List.countP_eq_zero.mpr
    (fun e he hc => by
      rcases List.mem_map.mp he with ⟨k, _, hk⟩
      rw [← hk] at hc
      cases hc)
  constructor
  · rw [List.countP_append, List.countP_append, hde, hdf, hcf, Nat.add_zero,
      Nat.zero_add, flushDeferred_length]
    have hb := hcap.2.2.2.2.2
    rw [hp0, Nat.add_zero] at hb
    exact hb
  · intro e he hdisc
    rcases List.mem_append.mp he with h | h
    · rw [hcap.2.2.1 e h] at hdisc
      cases hdisc
    · rcases List.mem_map.mp h with ⟨k, hkmem, hk⟩
      have hkd : k ∈ st'.deferred := List.mem_reverse.mp hkmem
      rw [← hk, htg k hkd]
      simp [isDisconnectE]

theorem st0_cap (rzs : List VolumeResizer) (server : List PersistentVolume) :
    CapInv rzs ⟨rzs.map (·.initConnected), [], 0, server, [], 0⟩ := by
  refine ⟨by simp, ?_, ?_, ?_, ?_, rfl⟩
  · intro i h
    rw [show RunState.connected ⟨rzs.map (·.initConnected), [], 0, server, [], 0⟩ =
      rzs.map (·.initConnected) from rfl, getD_map_initConnected]
    exact h
  · intro e he
    cases he
  · intro i _
    rfl
  · intro i
    dsimp only
    by_cases hc : (rzs.map (·.initConnected)).getD i false = true
    · rw [if_pos hc]
      simp
    · rw [if_neg hc]
      simp

theorem stepResizer_dset (env : ResizeEnv) (i : Nat) (rz : VolumeResizer) (b : Bool)
    (pvIdx : Nat) (pv : PersistentVolume) (ns nq : Nat) (st : RunState) :
    stepResizer env i { rz with disconnectOk := b } pvIdx pv ns nq st =
      stepResizer env i rz pvIdx pv ns nq st := by
  cases rz
  rfl

theorem processResizers_dset (env : ResizeEnv) (pvIdx : Nat) (pv : PersistentVolume)
    (ns nq : Nat) (b : Bool) :
    ∀ (l : List VolumeResizer) (i : Nat) (st : RunState),
      processResizers env pvIdx pv ns nq i
        (l.map fun rz => { rz with disconnectOk := b }) st =
      processResizers env pvIdx pv ns nq i l st := by
  intro l
  induction l with
  | nil => intro i st; rfl
  | cons rz rest ih =>
    intro i st
    rw [List.map_cons, processResizers, processResizers, stepResizer_dset]
    rcases hs : stepResizer env i rz pvIdx pv ns nq st with ⟨st1, r⟩
    cases r with
    | some e => rfl
    | none =>
      dsimp only
      exact ih (i + 1) st1

theorem processVolumes_dset (env : ResizeEnv) (rzs : List VolumeResizer)
    (ns nq : Nat) (b : Bool) :
    ∀ (l : List PersistentVolume) (j : Nat) (st : RunState),
      processVolumes env (rzs.map fun rz => { rz with disconnectOk := b }) ns nq j l st =
      processVolumes env rzs ns nq j l st := by
  intro l
  induction l with
  | nil => intro j st; rfl
  | cons pv rest ih =>
    intro j st
    rw [processVolumes, processVolumes]
    by_cases hgt : quantityToGigabyte pv.capacity > ns
    · rw [if_pos hgt, if_pos hgt]
    · rw [if_neg hgt, if_neg hgt]
      by_cases heq : quantityToGigabyte pv.capacity = ns
      · rw [if_pos heq, if_pos heq]
        exact ih (j + 1) st
      · rw [if_neg heq, if_neg heq, processResizers_dset]
        rcases hr : processResizers env j pv ns nq 0 rzs st with ⟨st1, r⟩
        cases r with
        | some e => rfl
        | none =>
          dsimp only
          exact ih (j + 1) st1

theorem map_init_dset (b : Bool) :
    ∀ (rzs : List VolumeResizer),
      (rzs.map fun rz => { rz with disconnectOk := b }).map (·.initConnected) =
        rzs.map (·.initConnected) := by
  intro rzs
  induction rzs with
  | nil => rfl
  | cons r t ih =>
    simp only [List.map_cons, ih]

/-- Claim C6, as stated, is false at a concrete input: with backends
`[rzOnlyVa, rzNone]` over the single 10-gigabyte volume `va` and a
20-gigabyte target, backend 0 matches and connects (one connect call) but is
never disconnected, while backend 1 never connects yet receives the one
disconnect call — each deferred closure disconnects the final value of the
shared inner-loop variable, not the backend that connected. -/
theorem C6_counterexample :
    ((resizeVolumes cA10 ⟨"20Gi"⟩ [rzOnlyVa, rzNone] envAllOk).res = none) ∧
    ((resizeVolumes cA10 ⟨"20Gi"⟩ [rzOnlyVa, rzNone] envAllOk).events.countP
      (isConnectE 0) = 1) ∧
    ((resizeVolumes cA10 ⟨"20Gi"⟩ [rzOnlyVa, rzNone] envAllOk).events.countP
      (isDisconnectE 0) = 0) ∧
    ((resizeVolumes cA10 ⟨"20Gi"⟩ [rzOnlyVa, rzNone] envAllOk).events.countP
      (isConnectE 1) = 0) ∧
    ((resizeVolumes cA10 ⟨"20Gi"⟩ [rzOnlyVa, rzNone] envAllOk).events.countP
      (isDisconnectE 1) = 1) :=
  ⟨rfl, rfl, rfl, rfl, rfl⟩

/-- Claim C6 (amended): for each backend, `resize` invokes connect at most
once per batch and never for a backend that starts connected, and replacing
every backend's disconnect outcome leaves the returned result unchanged — a
disconnect failure never changes what `resize` returns; but the deferred
disconnects do not target the backends that connected: each deferred closure
captures its inner loop's shared `resizer` variable, so on a run that does
not abort inside the backend loop (result nil or no-compatible-provider)
there is one disconnect call per successful connect and every one of them
targets the last backend of the supplied list. -/
theorem C6_capture_discipline :
    ∀ (c : Cluster) (v : VolumeSpec) (rzs : List VolumeResizer) (env : ResizeEnv),
      (∀ i, (resizeVolumes c v rzs env).events.countP (isConnectE i) ≤ 1) ∧
      (∀ i, initAt rzs i = true →
        (resizeVolumes c v rzs env).events.countP (isConnectE i) = 0) ∧
      (((resizeVolumes c v rzs env).res = none ∨
          (resizeVolumes c v rzs env).res = some .noCompatibleProvider) →
        ((resizeVolumes c v rzs env).events.countP isDisconnectAny =
          (resizeVolumes c v rzs env).events.countP isConnectAnyE) ∧
        (∀ e ∈ (resizeVolumes c v rzs env).events, isDisconnectAny e = true →
          isDisconnectE (rzs.length - 1) e = true)) ∧
      (∀ b : Bool,
        (resizeVolumes c v (rzs.map fun rz => { rz with disconnectOk := b }) env).res =
          (resizeVolumes c v rzs env).res) := by
  intro c v rzs env
  rcases hparse : parseQuantity v.size with _ | nq
  · have hres : resizeVolumes c v rzs env = ⟨some .invalidSizeSpec, [], c.serverPVs⟩ := by
      unfold resizeVolumes
      rw [hparse]
    have hres2 : ∀ b, resizeVolumes c v (rzs.map fun rz => { rz with disconnectOk := b })
        env = ⟨some .invalidSizeSpec, [], c.serverPVs⟩ := by
      intro b
      unfold resizeVolumes
      rw [hparse]
    rw [hres]
    refine ⟨?_, ?_, ?_, ?_⟩
    · intro i
      simp
    · intro i _
      rfl
    · intro _
      exact ⟨rfl, fun e2 he => absurd he (List.not_mem_nil e2)⟩
    · intro b
      rw [hres2 b]
  · rcases hlist : listPersistentVolumes c.replicas c.serverPVs c.pvcs with e | pvs
    · have hres : resizeVolumes c v rzs env = ⟨some e, [], c.serverPVs⟩ := by
        unfold resizeVolumes listVolumesWithManifestSize
        rw [hparse, hlist]
      have hres2 : ∀ b, resizeVolumes c v
          (rzs.map fun rz => { rz with disconnectOk := b }) env =
          ⟨some e, [], c.serverPVs⟩ := by
        intro b
        unfold resizeVolumes listVolumesWithManifestSize
        rw [hparse, hlist]
      rw [hres]
      refine ⟨?_, ?_, ?_, ?_⟩
      · intro i
        simp
      · intro i _
        rfl
      · intro _
        exact ⟨rfl, fun e2 he => absurd he (List.not_mem_nil e2)⟩
      · intro b
        rw [hres2 b]
    · have hrun := processVolumes_cap env rzs (quantityToGigabyte nq) nq pvs 0
        ⟨rzs.map (·.initConnected), [], 0, c.serverPVs, [], 0⟩
        (st0_cap rzs c.serverPVs) rfl
      have htgrun := processVolumes_targets env rzs (quantityToGigabyte nq) nq pvs 0
        ⟨rzs.map (·.initConnected), [], 0, c.serverPVs, [], 0⟩
        (fun t ht => absurd ht (List.not_mem_nil t))
      have herr := processVolumes_err env rzs (quantityToGigabyte nq) nq pvs 0
        ⟨rzs.map (·.initConnected), [], 0, c.serverPVs, [], 0⟩
      rw [resizeVolumes_run c v rzs env nq pvs hparse hlist]
      rcases hout : processVolumes env rzs (quantityToGigabyte nq) nq 0 pvs
          ⟨rzs.map (·.initConnected), [], 0, c.serverPVs, [], 0⟩ with ⟨st', r⟩
      rw [hout] at hrun htgrun herr
      rw [hout]
      have hverr : CapInvErr rzs st' := by
        cases r with
        | some e2 => exact hrun.2 (fun hc => Option.noConfusion hc)
        | none => exact capinv_weaken rzs st' (hrun.1 rfl).1
      have hcc := capture_conclusion rzs st' hverr
      refine ⟨hcc.1, hcc.2, ?_, ?_⟩
      · intro hres3
        cases r with
        | some e0 =>
          exfalso
          dsimp only at hres3
          rcases hres3 with h | h
          · exact Option.noConfusion h
          · exact herr e0 rfl (Option.some.inj h)
        | none =>
          dsimp only
          exact capture_balance rzs st' (hrun.1 rfl).1 (hrun.1 rfl).2 (htgrun rfl)
      · intro b
        have hrw : resizeVolumes c v (rzs.map fun rz => { rz with disconnectOk := b }) env =
            ⟨match (processVolumes env (rzs.map fun rz => { rz with disconnectOk := b })
                (quantityToGigabyte nq) nq 0 pvs
                ⟨(rzs.map fun rz => { rz with disconnectOk := b }).map (·.initConnected),
                  [], 0, c.serverPVs, [], 0⟩).2 with
              | some e => some e
              | none =>
                if 0 < pvs.length ∧
                    (processVolumes env (rzs.map fun rz => { rz with disconnectOk := b })
                      (quantityToGigabyte nq) nq 0 pvs
                      ⟨(rzs.map fun rz => { rz with disconnectOk := b }).map
                        (·.initConnected), [], 0, c.serverPVs, [], 0⟩).1.total = 0 then
                  some .noCompatibleProvider
                else none,
             (processVolumes env (rzs.map fun rz => { rz with disconnectOk := b })
                (quantityToGigabyte nq) nq 0 pvs
                ⟨(rzs.map fun rz => { rz with disconnectOk := b }).map (·.initConnected),
                  [], 0, c.serverPVs, [], 0⟩).1.events ++
               flushDeferred (rzs.map fun rz => { rz with disconnectOk := b })
                (processVolumes env (rzs.map fun rz => { rz with disconnectOk := b })
                  (quantityToGigabyte nq) nq 0 pvs
                  ⟨(rzs.map fun rz => { rz with disconnectOk := b }).map (·.initConnected),
                    [], 0, c.serverPVs, [], 0⟩).1,
             (processVolumes env (rzs.map fun rz => { rz with disconnectOk := b })
                (quantityToGigabyte nq) nq 0 pvs
                ⟨(rzs.map fun rz => { rz with disconnectOk := b }).map (·.initConnected),
                  [], 0, c.serverPVs, [], 0⟩).1.server⟩ :=
          resizeVolumes_run c v (rzs.map fun rz => { rz with disconnectOk := b }) env nq
            pvs hparse hlist
        rw [hrw]
        rw [map_init_dset b rzs, processVolumes_dset env rzs (quantityToGigabyte nq) nq b
          pvs 0 ⟨rzs.map (·.initConnected), [], 0, c.serverPVs, [], 0⟩]
        rw [hout]

theorem C6_witness :
    ((resizeVolumes cA10 ⟨"20Gi"⟩ [rzOnlyVa, rzNone] envAllOk).events.countP
      (isConnectE 0) ≤ 1) ∧
    ((resizeVolumes cA10 ⟨"20Gi"⟩ [rzOnlyVa, rzNone] envAllOk).events.countP
        isDisconnectAny =
      (resizeVolumes cA10 ⟨"20Gi"⟩ [rzOnlyVa, rzNone] envAllOk).events.countP
        isConnectAnyE) ∧
    (∀ e ∈ (resizeVolumes cA10 ⟨"20Gi"⟩ [rzOnlyVa, rzNone] envAllOk).events,
      isDisconnectAny e = true → isDisconnectE 1 e = true) ∧
    ((resizeVolumes cA10 ⟨"20Gi"⟩
        ([rzOnlyVa, rzNone].map fun rz => { rz with disconnectOk := false })
        envAllOk).res =
      (resizeVolumes cA10 ⟨"20Gi"⟩ [rzOnlyVa, rzNone] envAllOk).res) :=
  ⟨(C6_capture_discipline cA10 ⟨"20Gi"⟩ [rzOnlyVa, rzNone] envAllOk).1 0,
   ((C6_capture_discipline cA10 ⟨"20Gi"⟩ [rzOnlyVa, rzNone] envAllOk).2.2.1
     (Or.inl rfl)).1,
   ((C6_capture_discipline cA10 ⟨"20Gi"⟩ [rzOnlyVa, rzNone] envAllOk).2.2.1
     (Or.inl rfl)).2,
   (C6_capture_discipline cA10 ⟨"20Gi"⟩ [rzOnlyVa, rzNone] envAllOk).2.2.2 false⟩

theorem processVolumes_server_step (env : ResizeEnv) (rzs : List VolumeResizer)
    (ns nq : Nat) :
    ∀ (l : List PersistentVolume) (j : Nat) (st : RunState) (n : String),
      findPV (processVolumes env rzs ns nq j l st).1.server n = findPV st.server n ∨
      findPV (processVolumes env rzs ns nq j l st).1.server n =
        (findPV st.server n).map (fun p => { p with capacity := nq }) := by
  intro l
  induction l with
  | nil => intro j st n; exact Or.inl rfl
  | cons pv rest ih =>
    intro j st n
    rw [processVolumes]
    by_cases hgt : quantityToGigabyte pv.capacity > ns
    · rw [if_pos hgt]
      exact Or.inl rfl
    · rw [if_neg hgt]
      by_cases heq : quantityToGigabyte pv.capacity = ns
      · rw [if_pos heq]
        exact ih (j + 1) st n
      · rw [if_neg heq]
        have hsrv := processResizers_server env j pv ns nq rzs 0 st
        rcases hr : processResizers env j pv ns nq 0 rzs st with ⟨st1, r⟩
        rw [hr] at hsrv
        have hstep : findPV st1.server n = findPV st.server n ∨
            findPV st1.server n = (findPV st.server n).map
              (fun p => { p with capacity := nq }) := by
          rcases hsrv with h | h
          · exact Or.inl (by rw [h])
          · rw [h, findPV_setCapacity]
            by_cases hn : n = pv.name
            · rw [if_pos hn, hn]
              exact Or.inr rfl
            · rw [if_neg hn]
              exact Or.inl rfl
        cases r with
        | some e => exact hstep
        | none =>
          dsimp only
          rcases ih (j + 1) st1 n with h2 | h2 <;> rcases hstep with h3 | h3
          · exact Or.inl (h2.trans h3)
          · exact Or.inr (h2.trans h3)
          · exact Or.inr (by rw [h2, h3])
          · exact Or.inr (by rw [h2, h3, map_cap_idem])

theorem processResizers_set_of_matched (env : ResizeEnv) (pvIdx : Nat)
    (pv : PersistentVolume) (ns nq : Nat) :
    ∀ (l : List VolumeResizer) (i0 : Nat) (st : RunState),
      (processResizers env pvIdx pv ns nq i0 l st).2 = none →
      (∃ rz ∈ l, rz.belongs pv = true) →
      findPV (processResizers env pvIdx pv ns nq i0 l st).1.server pv.name =
        (findPV st.server pv.name).map (fun p => { p with capacity := nq }) := by
  intro l
  induction l with
  | nil => rintro i0 st _ ⟨rz, hmem, _⟩; cases hmem
  | cons rz rest ih =>
    rintro i0 st hnone ⟨rz0, hmem, hbel⟩
    rw [processResizers] at hnone ⊢
    rcases hs : stepResizer env i0 rz pvIdx pv ns nq st with ⟨st1, r⟩
    rw [hs] at hnone
    cases r with
    | some e => cases hnone
    | none =>
      dsimp only at hnone ⊢
      by_cases hb : rz.belongs pv
      · have hset : st1.server = setCapacity st.server pv.name nq := by
          have := stepResizer_set_of_none env i0 rz pvIdx pv ns nq st hb (by rw [hs])
          rw [hs] at this
          exact this
        have hst1 : findPV st1.server pv.name =
            (findPV st.server pv.name).map (fun p => { p with capacity := nq }) := by
          rw [hset, findPV_setCapacity, if_pos rfl]
        have hsrv := processResizers_server env pvIdx pv ns nq rest (i0 + 1) st1
        rcases hsrv with h | h
        · rw [h, hst1]
        · rw [h, findPV_setCapacity, if_pos rfl, hst1, map_cap_idem]
      · have hrz0 : rz0 ∈ rest := by
          rcases List.mem_cons.mp hmem with h | h
          · rw [h] at hbel
            rw [hbel] at hb
            exact absurd rfl hb
          · exact h
        have hsame : st1.server = st.server := by
          have := stepResizer_not_belongs env i0 rz pvIdx pv ns nq st (Bool.of_not_eq_true hb)
          rw [this] at hs
          cases hs
          rfl
        rw [ih (i0 + 1) st1 hnone ⟨rz0, hrz0, hbel⟩, hsame]

theorem processVolumes_set_of_matched (env : ResizeEnv) (rzs : List VolumeResizer)
    (ns nq : Nat) :
    ∀ (l : List PersistentVolume) (j : Nat) (st : RunState),
      (processVolumes env rzs ns nq j l st).2 = none →
      ∀ pv ∈ l, quantityToGigabyte pv.capacity ≠ ns →
      (∃ rz ∈ rzs, rz.belongs pv = true) →
      findPV (processVolumes env rzs ns nq j l st).1.server pv.name =
        (findPV st.server pv.name).map (fun p => { p with capacity := nq }) := by
  intro l
  induction l with
  | nil => intro j st _ pv hpv; cases hpv
  | cons pv0 rest ih =>
    intro j st hnone pv hpv hne hmatch
    rw [processVolumes] at hnone ⊢
    by_cases hgt : quantityToGigabyte pv0.capacity > ns
    · rw [if_pos hgt] at hnone
      cases hnone
    · rw [if_neg hgt] at hnone ⊢
      by_cases heq : quantityToGigabyte pv0.capacity = ns
      · rw [if_pos heq] at hnone ⊢
        have hpv' : pv ∈ rest := by
          rcases List.mem_cons.mp hpv with h | h
          · rw [h] at hne; exact absurd heq hne
          · exact h
        exact ih (j + 1) st hnone pv hpv' hne hmatch
      · rw [if_neg heq] at hnone ⊢
        rcases hr : processResizers env j pv0 ns nq 0 rzs st with ⟨st1, r⟩
        rw [hr] at hnone
        cases r with
        | some e => cases hnone
        | none =>
          dsimp only at hnone ⊢
          rcases List.mem_cons.mp hpv with h | h
          · subst h
            have hst1 : findPV st1.server pv.name =
                (findPV st.server pv.name).map (fun p => { p with capacity := nq }) := by
              have := processResizers_set_of_matched env j pv ns nq rzs 0 st
                (by rw [hr]) hmatch
              rw [hr] at this
              exact this
            rcases processVolumes_server_step env rzs ns nq rest (j + 1) st1 pv.name with
              h2 | h2
            · rw [h2, hst1]
            · rw [h2, hst1, map_cap_idem]
          · have hih := ih (j + 1) st1 hnone pv h hne hmatch
            have hst1 : findPV st1.server pv.name = findPV st.server pv.name ∨
                findPV st1.server pv.name = (findPV st.server pv.name).map
                  (fun p => { p with capacity := nq }) := by
              have hsrv := processResizers_server env j pv0 ns nq rzs 0 st
              rw [hr] at hsrv
              rcases hsrv with h2 | h2
              · exact Or.inl (by rw [h2])
              · rw [h2, findPV_setCapacity]
                by_cases hn : pv.name = pv0.name
                · rw [if_pos hn, hn]
                  exact Or.inr rfl
                · rw [if_neg hn]
                  exact Or.inl rfl
            rcases hst1 with h2 | h2
            · rw [hih, h2]
            · rw [hih, h2, map_cap_idem]

theorem forall₂_right_pred {α β : Type} (R : α → β → Prop) (P : β → Prop) :
    ∀ (l : List α) (l' : List β), List.Forall₂ R l l' →
      (∀ a ∈ l, ∀ b, R a b → P b) → ∀ b ∈ l', P b := by
  intro l l' h
  induction h with
  | nil => intro _ b hb; cases hb
  | cons hab htail ihtail =>
    intro hall b hb
    rcases List.mem_cons.mp hb with h2 | h2
    · rw [h2]
      exact hall _ (List.mem_cons_self _ _) _ hab
    · exact ihtail (fun a ha b2 hr => hall a (List.mem_cons_of_mem _ ha) b2 hr) b h2

theorem listPersistentVolumes_evol (replicas : Int)
    (server server' : List PersistentVolume) (nq : Nat)
    (hev : ∀ n, findPV server' n = findPV server n ∨
      findPV server' n = (findPV server n).map (fun p => { p with capacity := nq })) :
    ∀ (pvcs : List PersistentVolumeClaim) (pvs : List PersistentVolume),
      listPersistentVolumes replicas server pvcs = .ok pvs →
      ∃ pvs', listPersistentVolumes replicas server' pvcs = .ok pvs' ∧
        List.Forall₂ (fun pv pv' =>
          (pv' = pv ∨ pv' = { pv with capacity := nq }) ∧
          findPV server' pv.name = some pv') pvs pvs' := by
  intro pvcs
  induction pvcs with
  | nil =>
    intro pvs h
    simp only [listPersistentVolumes] at h
    cases h
    exact ⟨[], rfl, List.Forall₂.nil⟩
  | cons pvc rest ih =>
    intro pvs h
    rw [listPersistentVolumes] at h
    rcases he : claimEligibility replicas pvc.name with e | b
    · rw [he] at h
      cases h
    · rw [he] at h
      cases b with
      | false =>
        simp only [Bool.false_eq_true, if_false] at h
        rcases ih pvs h with ⟨pvs', hlist', hforall⟩
        refine ⟨pvs', ?_, hforall⟩
        rw [listPersistentVolumes, he]
        simp only [Bool.false_eq_true, if_false]
        exact hlist'
      | true =>
        simp only [if_true] at h
        rcases hf : findPV server pvc.volumeName with _ | pv
        · rw [hf] at h
          cases h
        · rw [hf] at h
          rcases hr : listPersistentVolumes replicas server rest with e2 | tail
          · rw [hr] at h
            cases h
          · rw [hr] at h
            cases h
            have hname : pv.name = pvc.volumeName := by
              have := List.find?_some hf
              simpa using this
            have hfind' : ∃ pv', findPV server' pvc.volumeName = some pv' ∧
                (pv' = pv ∨ pv' = { pv with capacity := nq }) := by
              rcases hev pvc.volumeName with h2 | h2
              · exact ⟨pv, by rw [h2, hf], Or.inl rfl⟩
              · exact ⟨{ pv with capacity := nq }, by rw [h2, hf]; rfl, Or.inr rfl⟩
            rcases hfind' with ⟨pv', hpv', hrel⟩
            rcases ih tail hr with ⟨tail', htail', hforall⟩
            refine ⟨pv' :: tail', ?_,
              List.Forall₂.cons ⟨hrel, by rw [hname]; exact hpv'⟩ hforall⟩
            rw [listPersistentVolumes, he]
            simp only [if_true]
            rw [hpv', htail']

/-- Claim C9 (amended): after `resize` completes successfully, every listed
volume whose size differed from the target and was matched by at least one
backend has been grown and its manifest quantity persisted; provided every
volume that needed resizing was matched by some backend, a subsequent
`needsResize` with the same manifest over the updated store returns false.
(Without that proviso the original claim fails: a volume needing resize that
no backend claims is silently skipped while the call still returns nil.) -/
theorem C9_roundtrip :
    ∀ (c : Cluster) (v : VolumeSpec) (rzs : List VolumeResizer) (env : ResizeEnv)
      (nq : Nat) (pvs : List PersistentVolume),
      parseQuantity v.size = some nq →
      listPersistentVolumes c.replicas c.serverPVs c.pvcs = .ok pvs →
      (resizeVolumes c v rzs env).res = none →
      (∀ pv ∈ pvs, quantityToGigabyte pv.capacity ≠ quantityToGigabyte nq →
        ∃ rz ∈ rzs, rz.belongs pv = true) →
      volumesNeedResizing
        { c with serverPVs := (resizeVolumes c v rzs env).server } v = .ok false := by
  intro c v rzs env nq pvs hp hl hres hmatch
  rw [resizeVolumes_run c v rzs env nq pvs hp hl] at hres ⊢
  rcases hout : processVolumes env rzs (quantityToGigabyte nq) nq 0 pvs
      ⟨rzs.map (·.initConnected), [], 0, c.serverPVs, [], 0⟩ with ⟨st', r⟩
  rw [hout] at hres
  rw [hout]
  have hnone : r = none := by
    cases r with
    | none => rfl
    | some e => cases hres
  subst hnone
  have hev : ∀ n, findPV st'.server n = findPV c.serverPVs n ∨
      findPV st'.server n = (findPV c.serverPVs n).map
        (fun p => { p with capacity := nq }) := by
    intro n
    have := processVolumes_server_step env rzs (quantityToGigabyte nq) nq pvs 0
      ⟨rzs.map (·.initConnected), [], 0, c.serverPVs, [], 0⟩ n
    rw [hout] at this
    exact this
  rcases listPersistentVolumes_evol c.replicas c.serverPVs st'.server nq hev c.pvcs
      pvs hl with ⟨pvs', hlist', hforall⟩
  have hall : ∀ pv' ∈ pvs', quantityToGigabyte pv'.capacity = quantityToGigabyte nq := by
    refine forall₂_right_pred _
      (fun pv' => quantityToGigabyte pv'.capacity = quantityToGigabyte nq)
      pvs pvs' hforall ?_
    intro pv hpv pv' hrel
    by_cases hne : quantityToGigabyte pv.capacity = quantityToGigabyte nq
    · rcases hrel.1 with h | h
      · rw [h]; exact hne
      · rw [h]
    · have hset : findPV st'.server pv.name =
          (findPV c.serverPVs pv.name).map (fun p => { p with capacity := nq }) := by
        have := processVolumes_set_of_matched env rzs (quantityToGigabyte nq) nq pvs 0
          ⟨rzs.map (·.initConnected), [], 0, c.serverPVs, [], 0⟩ (by rw [hout]) pv hpv hne
          (hmatch pv hpv hne)
        rw [hout] at this
        exact this
      have hmem := listPersistentVolumes_mem_find c.replicas c.serverPVs c.pvcs pvs
        hl pv hpv
      rw [hmem] at hset
      rw [hrel.2] at hset
      have : pv' = { pv with capacity := nq } := Option.some.inj hset
      rw [this]
  unfold volumesNeedResizing listVolumesWithManifestSize
  rw [hp]
  dsimp only
  rw [hlist']
  dsimp only
  congr 1
  apply List.any_eq_false.mpr
  intro pv' hpv'
  rw [hall pv' hpv']
  simp

theorem C9_witness :
    volumesNeedResizing
      { cAB10 with serverPVs := (resizeVolumes cAB10 ⟨"20Gi"⟩ [rzAll] envAllOk).server }
      ⟨"20Gi"⟩ = .ok false :=
  C9_roundtrip cAB10 ⟨"20Gi"⟩ [rzAll] envAllOk 21474836480 [pvVa, pvVb10] rfl rfl rfl
    (by decide)

theorem stepConnect_noBR (i : Nat) (rz : VolumeResizer) (pvIdx : Nat) (st : RunState)
    (i' j' : Nat) :
    (stepConnect i rz pvIdx st).1.events.countP (isBlockResizeFor i' j') =
      st.events.countP (isBlockResizeFor i' j') := by
  unfold stepConnect
  split_ifs <;> simp [countP_snoc, isBlockResizeFor]

theorem stepConnect_none_of_ok (i : Nat) (rz : VolumeResizer) (pvIdx : Nat)
    (st : RunState) (hok : rz.connectOk = true) :
    (stepConnect i rz pvIdx st).2 = none := by
  unfold stepConnect
  by_cases hc : st.connected.getD i false
  · rw [if_pos hc]
  · rw [if_neg hc, hok]
    rfl

theorem stepOps_success (env : ResizeEnv) (i : Nat) (rz : VolumeResizer) (pvIdx : Nat)
    (pv : PersistentVolume) (ns nq : Nat) (st : RunState) (vid : String)
    (hpid : rz.providerId pv = some vid)
    (hro : ∀ id n, rz.resizeOk id n = true)
    (hfs : ∀ p, env.fsResizeOk p = true)
    (hup : ∀ n, env.updateOk n = true)
    (hcl : dataVolumeName.length + 1 ≤ pv.claimRefName.length) :
    (stepOps env i rz pvIdx pv ns nq st).2 = none ∧
    (stepOps env i rz pvIdx pv ns nq st).1.events =
      st.events ++ [.getProviderID i pvIdx, .blockResize i pvIdx vid ns,
        .fsResize pvIdx ⟨pv.claimRefNamespace,
          strSuffixFrom pv.claimRefName (dataVolumeName.length + 1)⟩,
        .storeUpdate pvIdx pv.name nq] := by
  unfold stepOps getPodNameFromPersistentVolume
  rw [hpid]
  dsimp only
  rw [if_pos (hro vid ns), if_pos hcl]
  dsimp only
  rw [if_pos (hfs _), if_pos (hup _)]
  exact ⟨rfl, by simp⟩

theorem stepResizer_success_count (env : ResizeEnv) (i : Nat) (rz : VolumeResizer)
    (pvIdx : Nat) (pv : PersistentVolume) (ns nq : Nat) (st : RunState)
    (hok : rz.connectOk = true) (hpid : (rz.providerId pv).isSome = true)
    (hro : ∀ id n, rz.resizeOk id n = true)
    (hfs : ∀ p, env.fsResizeOk p = true)
    (hup : ∀ n, env.updateOk n = true)
    (hcl : dataVolumeName.length + 1 ≤ pv.claimRefName.length) :
    (stepResizer env i rz pvIdx pv ns nq st).2 = none ∧
    ∀ i' j',
      (stepResizer env i rz pvIdx pv ns nq st).1.events.countP (isBlockResizeFor i' j') =
        st.events.countP (isBlockResizeFor i' j') +
          (if i' = i ∧ j' = pvIdx ∧ rz.belongs pv = true then 1 else 0) := by
  by_cases hb : rz.belongs pv
  · rw [stepResizer_belongs_eq env i rz pvIdx pv ns nq st hb]
    unfold stepMatched
    rcases hvid : rz.providerId pv with _ | vid
    · rw [hvid] at hpid
      cases hpid
    · have hsc2 := stepConnect_none_of_ok i rz pvIdx
        { emit st (.belongsCheck i pvIdx) with total := st.total + 1 } hok
      have hscBR := fun i' j' => stepConnect_noBR i rz pvIdx
        { emit st (.belongsCheck i pvIdx) with total := st.total + 1 } i' j'
      rcases hsc : stepConnect i rz pvIdx
          { emit st (.belongsCheck i pvIdx) with total := st.total + 1 } with ⟨st1, r1⟩
      rw [hsc] at hsc2
      subst hsc2
      dsimp only
      have hops := stepOps_success env i rz pvIdx pv ns nq st1 vid hvid hro hfs hup hcl
      refine ⟨hops.1, ?_⟩
      intro i' j'
      rw [hops.2, List.countP_append]
      have hst1 : st1.events.countP (isBlockResizeFor i' j') =
          st.events.countP (isBlockResizeFor i' j') := by
        have := hscBR i' j'
        rw [hsc] at this
        rw [this]
        simp [countP_snoc, isBlockResizeFor]
      rw [hst1]
      congr 1
      by_cases h1 : i' = i
      · by_cases h2 : j' = pvIdx
        · subst h1
          subst h2
          rw [if_pos ⟨rfl, rfl, hb⟩]
          simp [List.countP_cons, isBlockResizeFor]
        · have h2' : (pvIdx == j') = false := beq_eq_false_iff_ne.mpr (fun hc => h2 hc.symm)
          rw [if_neg (by rintro ⟨_, hc, _⟩; exact h2 hc)]
          simp [List.countP_cons, isBlockResizeFor, h2']
      · have h1' : (i == i') = false := beq_eq_false_iff_ne.mpr (fun hc => h1 hc.symm)
        rw [if_neg (by rintro ⟨hc, _, _⟩; exact h1 hc)]
        simp [List.countP_cons, isBlockResizeFor, h1']
  · rw [stepResizer_not_belongs env i rz pvIdx pv ns nq st (Bool.of_not_eq_true hb)]
    refine ⟨rfl, ?_⟩
    intro i' j'
    rw [if_neg (by rintro ⟨_, _, hc⟩; rw [hc] at hb; exact hb rfl), Nat.add_zero]
    simp [countP_snoc, isBlockResizeFor]

theorem processResizers_success_count (env : ResizeEnv) (pvIdx : Nat)
    (pv : PersistentVolume) (ns nq : Nat) (rzs : List VolumeResizer)
    (hfs : ∀ p, env.fsResizeOk p = true)
    (hup : ∀ n, env.updateOk n = true)
    (hcl : dataVolumeName.length + 1 ≤ pv.claimRefName.length) :
    ∀ (l : List VolumeResizer) (i0 : Nat) (st : RunState),
      (∀ rz ∈ l, rz.connectOk = true ∧ (∀ q, (rz.providerId q).isSome = true) ∧
        (∀ id n, rz.resizeOk id n = true)) →
      (∀ k, k < l.length → rzs.get? (i0 + k) = l.get? k) →
      (processResizers env pvIdx pv ns nq i0 l st).2 = none ∧
      ∀ i' j',
        (processResizers env pvIdx pv ns nq i0 l st).1.events.countP
            (isBlockResizeFor i' j') =
          st.events.countP (isBlockResizeFor i' j') +
            (if j' = pvIdx ∧ i0 ≤ i' ∧ i' < i0 + l.length ∧
                ((rzs.get? i').map (fun rz => rz.belongs pv)).getD false = true
              then 1 else 0) := by
  intro l
  induction l with
  | nil =>
    intro i0 st _ _
    refine ⟨rfl, ?_⟩
    intro i' j'
    rw [if_neg (by rintro ⟨_, h1, h2, _⟩; simp at h2; omega), Nat.add_zero]
    rfl
  | cons rz rest ih =>
    intro i0 st hall hidx
    have hrz : rzs.get? i0 = some rz := by
      have := hidx 0 (by simp)
      simpa using this
    have hhd := hall rz (List.mem_cons_self rz rest)
    have hstep := stepResizer_success_count env i0 rz pvIdx pv ns nq st
      hhd.1 (hhd.2.1 pv) hhd.2.2 hfs hup hcl
    rw [processResizers]
    rcases hs : stepResizer env i0 rz pvIdx pv ns nq st with ⟨st1, r1⟩
    rw [hs] at hstep
    rcases hstep with ⟨hr1, hcount1⟩
    subst hr1
    dsimp only
    have hih := ih (i0 + 1) st1
      (fun rz' h => hall rz' (List.mem_cons_of_mem rz h))
      (fun k hk => by
        have := hidx (k + 1) (by simpa using Nat.succ_lt_succ hk)
        rw [show i0 + (k + 1) = i0 + 1 + k by omega] at this
        simpa using this)
    refine ⟨hih.1, ?_⟩
    intro i' j'
    rw [hih.2 i' j', hcount1 i' j']
    rw [Nat.add_assoc]
    congr 1
    by_cases hj : j' = pvIdx
    · by_cases hi0 : i' = i0
      · have hgl : rzs.get? i' = some rz := by rw [hi0]; exact hrz
        have hrest0 : (if j' = pvIdx ∧ i0 + 1 ≤ i' ∧ i' < i0 + 1 + rest.length ∧
            ((rzs.get? i').map (fun rz => rz.belongs pv)).getD false = true
            then 1 else 0) = 0 := by
          rw [if_neg]
          rintro ⟨_, hc, _, _⟩
          omega
        rw [hrest0, Nat.add_zero]
        by_cases hbel : rz.belongs pv = true
        · have hstep1 : (if i' = i0 ∧ j' = pvIdx ∧ rz.belongs pv = true
              then 1 else 0) = 1 := if_pos ⟨hi0, hj, hbel⟩
          have hfull1 : (if j' = pvIdx ∧ i0 ≤ i' ∧ i' < i0 + (rz :: rest).length ∧
              ((rzs.get? i').map (fun rz => rz.belongs pv)).getD false = true
              then 1 else 0) = 1 :=
            if_pos ⟨hj, by omega, by simp only [List.length_cons]; omega,
              by rw [hgl]; exact hbel⟩
          rw [hstep1, hfull1]
        · have hstep0 : (if i' = i0 ∧ j' = pvIdx ∧ rz.belongs pv = true
              then 1 else 0) = 0 := by
            rw [if_neg]
            rintro ⟨_, _, hc⟩
            exact hbel hc
          have hfull0 : (if j' = pvIdx ∧ i0 ≤ i' ∧ i' < i0 + (rz :: rest).length ∧
              ((rzs.get? i').map (fun rz => rz.belongs pv)).getD false = true
              then 1 else 0) = 0 := by
            rw [if_neg]
            rintro ⟨_, _, _, hc⟩
            rw [hgl] at hc
            exact hbel hc
          rw [hstep0, hfull0]
      · have hstep0 : (if i' = i0 ∧ j' = pvIdx ∧ rz.belongs pv = true
            then 1 else 0) = 0 := by
          rw [if_neg]
          rintro ⟨hc, _, _⟩
          exact hi0 hc
        rw [hstep0, Nat.zero_add]
        refine if_congr ⟨?_, ?_⟩ rfl rfl
        · rintro ⟨ha, hb2, hc2, hd⟩
          exact ⟨ha, by omega, by simp only [List.length_cons]; omega, hd⟩
        · rintro ⟨ha, hb2, hc2, hd⟩
          simp only [List.length_cons] at hc2
          exact ⟨ha, by omega, by omega, hd⟩
    · have hstep0 : (if i' = i0 ∧ j' = pvIdx ∧ rz.belongs pv = true
          then 1 else 0) = 0 := by
        rw [if_neg]
        rintro ⟨_, hc, _⟩
        exact hj hc
      have hrest0 : (if j' = pvIdx ∧ i0 + 1 ≤ i' ∧ i' < i0 + 1 + rest.length ∧
          ((rzs.get? i').map (fun rz => rz.belongs pv)).getD false = true
          then 1 else 0) = 0 := by
        rw [if_neg]
        rintro ⟨hc, _⟩
        exact hj hc
      have hfull0 : (if j' = pvIdx ∧ i0 ≤ i' ∧ i' < i0 + (rz :: rest).length ∧
          ((rzs.get? i').map (fun rz => rz.belongs pv)).getD false = true
          then 1 else 0) = 0 := by
        rw [if_neg]
        rintro ⟨hc, _⟩
        exact hj hc
      rw [hstep0, hrest0, hfull0]

theorem processVolumes_success_count (env : ResizeEnv) (rzs : List VolumeResizer)
    (pvs : List PersistentVolume) (ns nq : Nat)
    (hall : ∀ rz ∈ rzs, rz.connectOk = true ∧ (∀ q, (rz.providerId q).isSome = true) ∧
      (∀ id n, rz.resizeOk id n = true))
    (hfs : ∀ p, env.fsResizeOk p = true)
    (hup : ∀ n, env.updateOk n = true) :
    ∀ (l : List PersistentVolume) (j0 : Nat) (st : RunState),
      (∀ pv ∈ l, quantityToGigabyte pv.capacity ≤ ns ∧
        dataVolumeName.length + 1 ≤ pv.claimRefName.length) →
      (∀ k, k < l.length → pvs.get? (j0 + k) = l.get? k) →
      (processVolumes env rzs ns nq j0 l st).2 = none ∧
      ∀ i' j',
        (processVolumes env rzs ns nq j0 l st).1.events.countP (isBlockResizeFor i' j') =
          st.events.countP (isBlockResizeFor i' j') +
            (if j0 ≤ j' ∧ j' < j0 + l.length ∧ matchedB rzs pvs ns i' j' = true
              then 1 else 0) := by
  intro l
  induction l with
  | nil =>
    intro j0 st _ _
    refine ⟨rfl, ?_⟩
    intro i' j'
    rw [if_neg (by rintro ⟨h1, h2, _⟩; simp at h2; omega), Nat.add_zero]
    rfl
  | cons pv0 rest ih =>
    intro j0 st hsz hidx
    have hhd := hsz pv0 (List.mem_cons_self pv0 rest)
    have hle := hhd.1
    have hpj : pvs.get? j0 = some pv0 := by
      have := hidx 0 (by simp)
      simpa using this
    have hrest_sz : ∀ pv ∈ rest, quantityToGigabyte pv.capacity ≤ ns ∧
        dataVolumeName.length + 1 ≤ pv.claimRefName.length :=
      fun pv h => hsz pv (List.mem_cons_of_mem _ h)
    have hrest_idx : ∀ k, k < rest.length → pvs.get? (j0 + 1 + k) = rest.get? k := by
      intro k hk
      have := hidx (k + 1) (by simpa using Nat.succ_lt_succ hk)
      rw [show j0 + (k + 1) = j0 + 1 + k by omega] at this
      simpa using this
    rw [processVolumes]
    have hngt : ¬ (quantityToGigabyte pv0.capacity > ns) := by omega
    rw [if_neg hngt]
    by_cases heq : quantityToGigabyte pv0.capacity = ns
    · rw [if_pos heq]
      have hih := ih (j0 + 1) st hrest_sz hrest_idx
      refine ⟨hih.1, ?_⟩
      intro i' j'
      rw [hih.2 i' j']
      congr 1
      have hmB0 : ∀ i2, matchedB rzs pvs ns i2 j0 = false := by
        intro i2
        unfold matchedB
        rw [hpj]
        rcases hg : rzs.get? i2 with _ | rz
        · rfl
        · dsimp only
          rw [heq]
          simp
      refine if_congr ⟨?_, ?_⟩ rfl rfl
      · rintro ⟨h1, h2, h3⟩
        exact ⟨by omega, by simp only [List.length_cons]; omega, h3⟩
      · rintro ⟨h1, h2, h3⟩
        simp only [List.length_cons] at h2
        have hj : j' ≠ j0 := by
          intro hc
          rw [hc, hmB0 i'] at h3
          cases h3
        exact ⟨by omega, by omega, h3⟩
    · rw [if_neg heq]
      have hlt : quantityToGigabyte pv0.capacity < ns := Nat.lt_of_le_of_ne hle heq
      have hpr := processResizers_success_count env j0 pv0 ns nq rzs hfs hup hhd.2
        rzs 0 st hall (fun k _ => by rw [Nat.zero_add])
      rcases hr : processResizers env j0 pv0 ns nq 0 rzs st with ⟨st1, r⟩
      rw [hr] at hpr
      rcases hpr with ⟨hr1, hcount1⟩
      subst hr1
      dsimp only
      have hih := ih (j0 + 1) st1 hrest_sz hrest_idx
      refine ⟨hih.1, ?_⟩
      intro i' j'
      rw [hih.2 i' j', hcount1 i' j', Nat.add_assoc]
      congr 1
      by_cases hj : j' = j0
      · have hrest0 : (if j0 + 1 ≤ j' ∧ j' < j0 + 1 + rest.length ∧
            matchedB rzs pvs ns i' j' = true then 1 else 0) = 0 := by
          rw [if_neg]
          rintro ⟨hc, _⟩
          omega
        rcases hg : rzs.get? i' with _ | rz
        · have hres0 : (if j' = j0 ∧ 0 ≤ i' ∧ i' < 0 + rzs.length ∧
              ((none : Option VolumeResizer).map (fun rz => rz.belongs pv0)).getD
                false = true then 1 else 0) = 0 := by
            rw [if_neg]
            rintro ⟨_, _, _, hc⟩
            simp at hc
          have hmB0 : matchedB rzs pvs ns i' j0 = false := by
            unfold matchedB
            rw [hpj, hg]
          have hfull0 : (if j0 ≤ j' ∧ j' < j0 + (pv0 :: rest).length ∧
              matchedB rzs pvs ns i' j' = true then 1 else 0) = 0 := by
            rw [if_neg]
            rintro ⟨_, _, hc⟩
            rw [hj, hmB0] at hc
            cases hc
          rw [hres0, hrest0, hfull0]
        · have hilen : i' < rzs.length := by
            by_contra h
            rw [List.get?_eq_none.mpr (Nat.le_of_not_lt h)] at hg
            cases hg
          have hmB : matchedB rzs pvs ns i' j0 = rz.belongs pv0 := by
            unfold matchedB
            rw [hpj, hg]
            dsimp only
            simp [hlt]
          have hres : (if j' = j0 ∧ 0 ≤ i' ∧ i' < 0 + rzs.length ∧
              ((Option.some rz).map (fun rz => rz.belongs pv0)).getD false = true
              then 1 else 0) = (if rz.belongs pv0 = true then 1 else 0) := by
            by_cases hbel : rz.belongs pv0 = true
            · rw [if_pos ⟨hj, Nat.zero_le _, by omega, hbel⟩, if_pos hbel]
            · rw [if_neg (by rintro ⟨_, _, _, hc⟩; exact hbel hc), if_neg hbel]
          have hfull : (if j0 ≤ j' ∧ j' < j0 + (pv0 :: rest).length ∧
              matchedB rzs pvs ns i' j' = true then 1 else 0) =
              (if rz.belongs pv0 = true then 1 else 0) := by
            rw [hj, hmB]
            by_cases hbel : rz.belongs pv0 = true
            · rw [if_pos ⟨Nat.le_refl _, by simp only [List.length_cons]; omega, hbel⟩,
                if_pos hbel]
            · rw [if_neg (by rintro ⟨_, _, hc⟩; exact hbel hc), if_neg hbel]
          rw [hres, hrest0, hfull, Nat.add_zero]
      · have hres0 : (if j' = j0 ∧ 0 ≤ i' ∧ i' < 0 + rzs.length ∧
            ((rzs.get? i').map (fun rz => rz.belongs pv0)).getD false = true
            then 1 else 0) = 0 := by
          rw [if_neg]
          rintro ⟨hc, _⟩
          exact hj hc
        rw [hres0, Nat.zero_add]
        refine if_congr ⟨?_, ?_⟩ rfl rfl
        · rintro ⟨h1, h2, h3⟩
          exact ⟨by omega, by simp only [List.length_cons]; omega, h3⟩
        · rintro ⟨h1, h2, h3⟩
          simp only [List.length_cons] at h2
          exact ⟨by omega, by omega, h3⟩

theorem flushDeferred_countP_blockResize (rzs : List VolumeResizer) (st : RunState)
    (i' j' : Nat) : (flushDeferred rzs st).countP (isBlockResizeFor i' j') = 0 := by
  rw [List.countP_eq_zero]
  intro e he
  rcases List.mem_map.mp he with ⟨i, _, hi⟩
  intro hc
  rw [← hi] at hc
  exact Bool.false_ne_true hc

theorem matchedB_lt_length (rzs : List VolumeResizer) (pvs : List PersistentVolume)
    (ns : Nat) (i' j' : Nat) (h : matchedB rzs pvs ns i' j' = true) :
    j' < pvs.length := by
  unfold matchedB at h
  rcases hg : pvs.get? j' with _ | pv
  · rw [hg] at h
    rcases rzs.get? i' with _ | rz
    · cases h
    · cases h
  · by_contra hc
    rw [List.get?_eq_none.mpr (Nat.le_of_not_lt hc)] at hg
    cases hg

/-- Claim C7, as stated, is false at a concrete input: the claim named
`db-cluster-4294967296` carries the trailing decimal ordinal 4294967296,
strictly greater than `currentReplicaCount - 1 = 1`, yet enumeration
resolves and returns its volume, because Go truncates the parsed ordinal with
`int32(...)` and `int32(4294967296) = 0`. -/
theorem C7_counterexample :
    listPersistentVolumes 2 [pvVa] [⟨"db-cluster-4294967296", "va"⟩] = .ok [pvVa] ∧
    ((4294967296 : Int) > 2 - 1) := by
  exact ⟨rfl, by norm_num⟩

/-- Claim C7 (amended): volume enumeration excludes exactly those claims whose
name ends in a dash-delimited token that parses as a decimal integer `N`
(64-bit range) whose truncation to int32 exceeds `currentReplicaCount - 1`
(for ordinals below 2^31 this is exactly `N > currentReplicaCount - 1`, so
`db-cluster-2` is excluded at replica count 2 and included at 3), and it
resolves and returns the volumes of all other surviving claims, in order. -/
theorem C7_exclusion_rule :
    (∀ (replicas : Int) (name : String),
      claimEligibility replicas name = .ok false ↔
        ∃ d, lastDashIdx name = some d ∧ 0 < d ∧ d + 1 < name.length ∧
          ∃ n, atoi (strSuffixFrom name (d + 1)) = some n ∧
            toInt32 n > toInt32 (replicas - 1)) ∧
    (∀ (replicas : Int) (server : List PersistentVolume)
       (pvcs : List PersistentVolumeClaim) (pvs : List PersistentVolume),
      listPersistentVolumes replicas server pvcs = .ok pvs →
      List.Forall₂ (fun pvc pv => findPV server pvc.volumeName = some pv)
        (pvcs.filter fun pvc => eligibleB replicas pvc.name) pvs) :=
  ⟨claimEligibility_excluded_iff,
   fun replicas server pvcs pvs h =>
     listPersistentVolumes_filter_forall₂ replicas server pvcs pvs h⟩

theorem C7_witness :
    (claimEligibility 2 "db-cluster-2" = .ok false) ∧
    (claimEligibility 3 "db-cluster-2" = .ok true) ∧
    List.Forall₂ (fun pvc pv => findPV [pvVa] pvc.volumeName = some pv)
      (([⟨"db-cluster-0", "va"⟩, ⟨"db-cluster-2", "va"⟩] :
          List PersistentVolumeClaim).filter fun pvc => eligibleB 2 pvc.name)
      [pvVa] :=
  ⟨(C7_exclusion_rule.1 2 "db-cluster-2").mpr
      ⟨10, rfl, by decide, by decide, 2, rfl, by decide⟩,
   rfl,
   C7_exclusion_rule.2 2 [pvVa] [⟨"db-cluster-0", "va"⟩, ⟨"db-cluster-2", "va"⟩]
     [pvVa] rfl⟩

/-- Claim C8, as stated, is false at a concrete input: the claim `db-x` has a
non-numeric last dash-delimited token, and enumeration does not include its
volume — it aborts the whole listing with the malformed-identifier error. -/
theorem C8_counterexample :
    listPersistentVolumes 1 [pvVa] [⟨"db-x", "va"⟩] =
      .error (.malformedIdentifier "db-x") := rfl

/-- Claim C8 (amended): a claim whose name has no dash, whose only dash is the
leading character, or whose name ends in a dash is always eligible for any
replica count; but a claim whose last dash-delimited token is non-empty and
not parseable as an integer aborts enumeration with the malformed-identifier
error rather than being treated as eligible. -/
theorem C8_no_ordinal_eligible :
    ∀ (replicas : Int) (name : String),
      ((lastDashIdx name = none ∨
        ∃ d, lastDashIdx name = some d ∧ ¬(0 < d ∧ d + 1 < name.length)) →
        claimEligibility replicas name = .ok true) ∧
      (∀ d, lastDashIdx name = some d → 0 < d → d + 1 < name.length →
        atoi (strSuffixFrom name (d + 1)) = none →
        claimEligibility replicas name = .error (.malformedIdentifier name)) := by
  intro replicas name
  constructor
  · rintro (hld | ⟨d, hld, hc⟩)
    · unfold claimEligibility
      rw [hld]
    · unfold claimEligibility
      rw [hld]
      dsimp only
      rw [if_neg hc]
  · intro d hld h1 h2 ha
    unfold claimEligibility
    rw [hld]
    dsimp only
    rw [if_pos ⟨h1, h2⟩, ha]

theorem C8_witness :
    (claimEligibility 5 "nodash" = .ok true) ∧
    (claimEligibility 5 "-lead" = .ok true) ∧
    (claimEligibility 5 "trail-" = .ok true) ∧
    (claimEligibility 5 "db-x" = .error (.malformedIdentifier "db-x")) :=
  ⟨(C8_no_ordinal_eligible 5 "nodash").1 (Or.inl rfl),
   (C8_no_ordinal_eligible 5 "-lead").1 (Or.inr ⟨0, rfl, by decide⟩),
   (C8_no_ordinal_eligible 5 "trail-").1 (Or.inr ⟨5, rfl, by decide⟩),
   (C8_no_ordinal_eligible 5 "db-x").2 2 rfl (by decide) (by decide) rfl⟩

/-- Claim C10: pod-name recovery is partial — whenever the claim
back-reference name is shorter than `len(DataVolumeName) + 1` characters the
Go slice is out of bounds (modelled as `none`); when it is long enough the
function strips purely by position, returning a value whatever the leading
characters are, with no check that they equal the data-volume prefix; and the
resize protocol does not guard against the short case: a full `resizeVolumes`
run reaches the out-of-bounds slice on a volume whose claim back-reference
name is `"x"`. -/
theorem C10_podname_partiality :
    (∀ pv : PersistentVolume,
      pv.claimRefName.length < dataVolumeName.length + 1 →
      getPodNameFromPersistentVolume pv = none) ∧
    (∀ pv : PersistentVolume,
      dataVolumeName.length + 1 ≤ pv.claimRefName.length →
      getPodNameFromPersistentVolume pv =
        some ⟨pv.claimRefNamespace,
              strSuffixFrom pv.claimRefName (dataVolumeName.length + 1)⟩) ∧
    ((resizeVolumes cShortClaim ⟨"20Gi"⟩ [rzAll] envAllOk).res =
      some (.substringPanic "x")) := by
  refine ⟨?_, ?_, rfl⟩
  · intro pv h
    unfold getPodNameFromPersistentVolume
    rw [if_neg (by omega)]
  · intro pv h
    unfold getPodNameFromPersistentVolume
    rw [if_pos h]

theorem C10_witness :
    (getPodNameFromPersistentVolume ⟨"vs", 10737418240, "default", "x"⟩ = none) ∧
    (getPodNameFromPersistentVolume ⟨"v", 0, "ns", "Xpgdatamycluster-0"⟩ =
      some ⟨"ns", "mycluster-0"⟩) :=
  ⟨C10_podname_partiality.1 ⟨"vs", 10737418240, "default", "x"⟩ (by decide),
   (C10_podname_partiality.2.1 ⟨"v", 0, "ns", "Xpgdatamycluster-0"⟩
      (by decide)).trans (by decide)⟩

/-- Claim C1, as stated, is false at a concrete input: a non-empty batch whose
single volume already has the 20-gigabyte target size is not a successful
no-op — `resizeVolumes` leaves `totalCompatible` at zero and returns the
no-compatible-provider error even though a backend was supplied. -/
theorem C1_counterexample :
    (listVolumesWithManifestSize cEq20 ⟨"20Gi"⟩ =
      .ok ([⟨"va", 21474836480, "default", "pgdata-a-0"⟩], 20)) ∧
    (quantityToGigabyte 21474836480 = 20) ∧
    ((resizeVolumes cEq20 ⟨"20Gi"⟩ [rzAll] envAllOk).res =
      some .noCompatibleProvider) :=
  ⟨rfl, rfl, rfl⟩

/-- Claim C2, as stated, is false at a concrete input: with two backends whose
ownership predicates both match the single 10-gigabyte volume and a
20-gigabyte target, `resizeVolumes` returns nil and the trace shows the same
volume block-resized through backend 0 and again through backend 1 — no error
is reported for the ambiguity. -/
theorem C2_counterexample :
    ((resizeVolumes cA10 ⟨"20Gi"⟩ [rzAll, rzAll] envAllOk).res = none) ∧
    ((resizeVolumes cA10 ⟨"20Gi"⟩ [rzAll, rzAll] envAllOk).events.countP
      (isBlockResizeFor 0 0) = 1) ∧
    ((resizeVolumes cA10 ⟨"20Gi"⟩ [rzAll, rzAll] envAllOk).events.countP
      (isBlockResizeFor 1 0) = 1) :=
  ⟨rfl, rfl, rfl⟩

/-- Claim C2 (amended): `resize` does not enforce one-backend-per-volume. On a
fault-free run — every backend connects, yields a provider id and resizes
successfully, the filesystem resize and the store update succeed, no listed
volume exceeds the target, and every claim name is long enough for the pod-name
slice — every backend whose ownership predicate matches a volume that needs
growing block-resizes that volume exactly once; two matching backends thus
resize the same volume twice with no error reported, and a volume needing
growth that no backend matches is resized zero times while the call can only
end in nil or in the batch-wide `NoCompatibleProvider` error. -/
theorem C2_each_matching_backend_resizes_once (c : Cluster) (v : VolumeSpec)
    (rzs : List VolumeResizer) (env : ResizeEnv) (nq : Nat)
    (pvs : List PersistentVolume)
    (hp : parseQuantity v.size = some nq)
    (hl : listPersistentVolumes c.replicas c.serverPVs c.pvcs = .ok pvs)
    (hall : ∀ rz ∈ rzs, rz.connectOk = true ∧
      (∀ q, (rz.providerId q).isSome = true) ∧ (∀ id n, rz.resizeOk id n = true))
    (hfs : ∀ p, env.fsResizeOk p = true)
    (hup : ∀ n, env.updateOk n = true)
    (hsz : ∀ pv ∈ pvs, quantityToGigabyte pv.capacity ≤ quantityToGigabyte nq ∧
      dataVolumeName.length + 1 ≤ pv.claimRefName.length) :
    ((resizeVolumes c v rzs env).res = none ∨
      (resizeVolumes c v rzs env).res = some .noCompatibleProvider) ∧
    ∀ i' j',
      (resizeVolumes c v rzs env).events.countP (isBlockResizeFor i' j') =
        if matchedB rzs pvs (quantityToGigabyte nq) i' j' = true then 1 else 0 := by
  rw [resizeVolumes_run c v rzs env nq pvs hp hl]
  have hpv := processVolumes_success_count env rzs pvs (quantityToGigabyte nq) nq
    hall hfs hup pvs 0 ⟨rzs.map (·.initConnected), [], 0, c.serverPVs, [], 0⟩
    hsz (fun k _ => by rw [Nat.zero_add])
  rcases hout : processVolumes env rzs (quantityToGigabyte nq) nq 0 pvs
      ⟨rzs.map (·.initConnected), [], 0, c.serverPVs, [], 0⟩ with ⟨st', r⟩
  rw [hout] at hpv
  rw [hout]
  rcases hpv with ⟨hr, hcount⟩
  subst hr
  refine ⟨?_, ?_⟩
  · dsimp only
    by_cases hc : 0 < pvs.length ∧ st'.total = 0
    · rw [if_pos hc]
      exact Or.inr rfl
    · rw [if_neg hc]
      exact Or.inl rfl
  · intro i' j'
    dsimp only
    rw [List.countP_append, flushDeferred_countP_blockResize, Nat.add_zero,
      hcount i' j']
    dsimp only
    rw [List.countP_nil, Nat.zero_add]
    refine if_congr ⟨?_, ?_⟩ rfl rfl
    · rintro ⟨_, _, h3⟩
      exact h3
    · intro h3
      refine ⟨Nat.zero_le _, ?_, h3⟩
      have := matchedB_lt_length rzs pvs (quantityToGigabyte nq) i' j' h3
      omega

theorem C2_witness :
    ((resizeVolumes cA10 ⟨"20Gi"⟩ [rzAll, rzAll] envAllOk).res = none ∨
      (resizeVolumes cA10 ⟨"20Gi"⟩ [rzAll, rzAll] envAllOk).res =
        some .noCompatibleProvider) ∧
    ∀ i' j',
      (resizeVolumes cA10 ⟨"20Gi"⟩ [rzAll, rzAll] envAllOk).events.countP
          (isBlockResizeFor i' j') =
        if matchedB [rzAll, rzAll] [pvVa] (quantityToGigabyte 21474836480) i' j' = true
          then 1 else 0 :=
  C2_each_matching_backend_resizes_once cA10 ⟨"20Gi"⟩ [rzAll, rzAll] envAllOk
    21474836480 [pvVa] rfl rfl
    (by
      intro rz hrz
      have hrz' : rz = rzAll := by
        rcases List.mem_cons.mp hrz with h | h
        · exact h
        · rcases List.mem_cons.mp h with h2 | h2
          · exact h2
          · cases h2
      subst hrz'
      exact ⟨rfl, fun q => rfl, fun id n => rfl⟩)
    (fun p => rfl) (fun n => rfl)
    (by
      intro pv hpv
      have hpv' : pv = pvVa := by
        rcases List.mem_cons.mp hpv with h | h
        · exact h
        · cases h
      subst hpv'
      exact ⟨by decide, by decide⟩)

/-- Claim C3, as stated, is false at a concrete input: volume `va` (10Gi)
precedes volume `vb` (30Gi) in the batch and is matched by the backend, so
`resizeVolumes` with a 20Gi target resizes and updates `va` before aborting on
`vb` — the call returns the shrink error, yet `va`'s recorded capacity did
change and a store capacity update was performed. -/
theorem C3_counterexample :
    ((resizeVolumes cGrowShrink ⟨"20Gi"⟩ [rzAll] envAllOk).res =
      some .shrinkNotSupported) ∧
    (findPV (resizeVolumes cGrowShrink ⟨"20Gi"⟩ [rzAll] envAllOk).server "va" =
      some ⟨"va", 21474836480, "default", "pgdata-a-0"⟩) ∧
    (findPV cGrowShrink.serverPVs "va" =
      some ⟨"va", 10737418240, "default", "pgdata-a-0"⟩) ∧
    ((resizeVolumes cGrowShrink ⟨"20Gi"⟩ [rzAll] envAllOk).events.countP
      isStoreUpdateE = 1) :=
  ⟨rfl, rfl, rfl, rfl⟩

/-- Claim C9, as stated, is false at a concrete input: volume `va` is matched
by the sole backend and grown from 10Gi to the 20Gi target, while volume `vb`
also needs resizing but matches no backend; since `totalCompatible` ended
positive, `resizeVolumes` returns nil — yet a subsequent `volumesNeedResizing`
with the same manifest over the updated store still returns true because `vb`
was silently skipped. -/
theorem C9_counterexample :
    ((resizeVolumes cAB10 ⟨"20Gi"⟩ [rzOnlyVa] envAllOk).res = none) ∧
    (volumesNeedResizing
      { cAB10 with
        serverPVs := (resizeVolumes cAB10 ⟨"20Gi"⟩ [rzOnlyVa] envAllOk).server }
      ⟨"20Gi"⟩ = .ok true) :=
  ⟨rfl, rfl⟩

end PgOp
